import Mathlib

/-!
Verification of the FrameGen image-analysis core.

Shallow embedding conventions, used throughout:
* JS `ImageData` is a record of width, height and a flat RGBA byte list.
* JS floating-point arithmetic is idealized as exact rational (`ℚ`) or real (`ℝ`)
  arithmetic; all numeric literals in the source are dyadic or decimal rationals.
* A JS expression that is not a finite number (`NaN`, or an infinity produced by a
  division by zero) is modelled as `none : Option ℚ`.  No analyzed code path
  distinguishes `NaN` from an infinity: both fail every `<`/`>` comparison and
  both poison `Math.min`/`Math.max` and arithmetic, which is what `none` does here.
* A JS array read at an out-of-range or fractional index yields `undefined`; where
  such a read can occur it is modelled as `none`.  Where every read is in range
  under the `ValidBuffer` hypothesis carried by the theorems, reads use `List.getD`
  with default 0 for convenience; the default is unreachable there.
* The Sobel edge map stores the SQUARE of each gradient magnitude (the source
  stores `sqrt(gx²+gy²)`).  The square is an exact rational; every downstream use
  either compares the magnitude with a nonnegative threshold `t` (translated
  exactly to a comparison with `t²`) or truthiness-tests it (`mag ≠ 0 ↔ mag² ≠ 0`).
  The one place the source adds magnitudes themselves (the ROI window sum) takes
  `Real.sqrt` of the stored square, so no information is lost.
-/

namespace FrameGen

/-- JS `ImageData`: RGBA samples in a flat byte array plus dimensions. -/
structure ImageData where
  width : ℕ
  height : ℕ
  data : List ℕ
deriving DecidableEq

/-- A valid pixel buffer: positive dimensions, `width*height*4` bytes, byte values. -/
def ValidBuffer (b : ImageData) : Prop :=
  0 < b.width ∧ 0 < b.height ∧ b.data.length = 4 * b.width * b.height ∧
    ∀ v ∈ b.data, v ≤ 255

instance (b : ImageData) : Decidable (ValidBuffer b) := by
  unfold ValidBuffer; infer_instance

/-- Byte read `data[i]` at a whole-number index.  Out-of-range reads return the
default 0; every theorem below restricts to reads that are in range under
`ValidBuffer`, where the default is unreachable. -/
def byte (b : ImageData) (i : ℕ) : ℚ :=
  (b.data.getD i 0 : ℚ)

/-- Grayscale value `(data[4p] + data[4p+1] + data[4p+2]) / 3` of pixel `p`
(the source's unweighted channel average). -/
def grayP (b : ImageData) (p : ℕ) : ℚ :=
  (byte b (4 * p) + byte b (4 * p + 1) + byte b (4 * p + 2)) / 3

/-- Grayscale value of the pixel at column `x`, row `y`. -/
def grayAt (b : ImageData) (x y : ℕ) : ℚ :=
  grayP b (y * b.width + x)

/-- The fixed Sobel kernel `Gx = [-1,0,1,-2,0,2,-1,0,1]`. -/
def sobelX : List ℤ := [-1, 0, 1, -2, 0, 2, -1, 0, 1]

/-- The fixed Sobel kernel `Gy = [-1,-2,-1,0,0,0,1,2,1]`. -/
def sobelY : List ℤ := [-1, -2, -1, 0, 0, 0, 1, 2, 1]

/-- The pair `(gx, gy)` accumulated by the 3×3 Sobel convolution loops at the
interior pixel `(x, y)` (`1 ≤ x`, `1 ≤ y`); offset indices `ky, kx ∈ {0,1,2}`
stand for the source's `-1..1`. -/
def gxy (b : ImageData) (x y : ℕ) : ℚ × ℚ :=
  (List.range 3).foldl (fun acc ky =>
    (List.range 3).foldl (fun acc2 kx =>
      let g := grayAt b (x + kx - 1) (y + ky - 1)
      let k := ky * 3 + kx
      (acc2.1 + g * (sobelX.getD k 0 : ℚ), acc2.2 + g * (sobelY.getD k 0 : ℚ)))
      acc) (0, 0)

/-- Squared Sobel gradient magnitude `gx² + gy²` at pixel `(x, y)`
(the source stores `sqrt` of this; see the file header). -/
def magSq (b : ImageData) (x y : ℕ) : ℚ :=
  (gxy b x y).1 ^ 2 + (gxy b x y).2 ^ 2

/-- `ImageUtils.detectEdges`.  The source allocates `new Array(width*height)` and
fills only interior pixels, so border cells remain JS array holes (`undefined`),
modelled as `none`.  Interior cells store the squared gradient magnitude. -/
def detectEdges (b : ImageData) : List (Option ℚ) :=
  (List.range (b.width * b.height)).map (fun i =>
    let x := i % b.width
    let y := i / b.width
    if 1 ≤ x ∧ x < b.width - 1 ∧ 1 ≤ y ∧ y < b.height - 1 then some (magSq b x y)
    else none)

theorem detectEdges_length (b : ImageData) : (detectEdges b).length = b.width * b.height := by
  simp [detectEdges]

/-- A composition-grid point as produced by `CompositionUtils`. -/
structure GridPoint where
  x : ℚ
  y : ℚ
  ptype : String
deriving DecidableEq

/-- The Fibonacci table `[1,1,2,3,5,8,13,21,34,55,89,144]` from
`CompositionUtils.generateFibonacciGrid`. -/
def fibTable : List ℕ := [1, 1, 2, 3, 5, 8, 13, 21, 34, 55, 89, 144]

/-- `CompositionUtils.generateFibonacciGrid`: one point per index `i = 1 .. 11`,
at `ratio * width` and `ratio * height` with `ratio = fib[i] / fib[11]`. -/
def generateFibonacciGrid (width height : ℚ) : List GridPoint :=
  ((List.range fibTable.length).drop 1).map (fun i =>
    let ratio : ℚ := (fibTable.getD i 0 : ℚ) / (fibTable.getD (fibTable.length - 1) 0 : ℚ)
    { x := ratio * width, y := ratio * height, ptype := "fibonacci" })

/-- A candidate crop rectangle (the interactive `cropSelection` object). -/
structure CropSelection where
  x : ℚ
  y : ℚ
  width : ℚ
  height : ℚ
deriving DecidableEq

/-- JS division: `some (a / b)` for a nonzero divisor; `none` (a non-finite
result — NaN when `a = 0`, an infinity otherwise) for a zero divisor. -/
def jdiv (a c : ℚ) : Option ℚ :=
  if c = 0 then none else some (a / c)

/-- `AIComposer.goldenRatioAnalysis`: neutral `0.5` without a crop, otherwise
`max(0, 1 - |crop aspect - 1.618| / 1.618)`. -/
def goldenRatioAnalysis (b : ImageData) (crop : Option CropSelection) : Option ℚ :=
  match crop with
  | none => some (1 / 2)
  | some c =>
      (jdiv c.width c.height).map (fun ratio =>
        max 0 (1 - |ratio - 1.618| / 1.618))

/-- `AIComposer.ruleOfThirdsAnalysis`: neutral `0.5` without a crop, otherwise the
best over the four thirds intersections of `max(0, 1 - d / (min(w,h)/4))`,
with `d` the Euclidean distance from the crop center. -/
noncomputable def ruleOfThirdsAnalysis (b : ImageData) (crop : Option CropSelection) : ℝ :=
  match crop with
  | none => 1 / 2
  | some c =>
      let thirdX : ℚ := (b.width : ℚ) / 3
      let thirdY : ℚ := (b.height : ℚ) / 3
      let cx : ℚ := c.x + c.width / 2
      let cy : ℚ := c.y + c.height / 2
      let inters : List (ℚ × ℚ) :=
        [(thirdX, thirdY), (2 * thirdX, thirdY), (thirdX, 2 * thirdY), (2 * thirdX, 2 * thirdY)]
      inters.foldl (fun best pt =>
        let d : ℝ := Real.sqrt (((cx - pt.1) ^ 2 + (cy - pt.2) ^ 2 : ℚ))
        max best (max 0 (1 - d / ((min b.width b.height : ℚ) / 4)))) 0

/-! Arithmetic on `Option ℚ` mirroring JS number arithmetic with `none` as the
non-finite absorbing element (see the file header). -/

/-- Addition; `none` (non-finite) is absorbing. -/
def oadd : Option ℚ → Option ℚ → Option ℚ
  | some a, some c => some (a + c)
  | _, _ => none

/-- Subtraction; `none` is absorbing. -/
def osub : Option ℚ → Option ℚ → Option ℚ
  | some a, some c => some (a - c)
  | _, _ => none

/-- Absolute value (`Math.abs`); `none` is absorbing. -/
def oabs : Option ℚ → Option ℚ
  | some a => some |a|
  | none => none

/-- `Math.max`; JS returns NaN when either argument is NaN. -/
def omax : Option ℚ → Option ℚ → Option ℚ
  | some a, some c => some (max a c)
  | _, _ => none

/-- Division; `none` for a non-finite operand or a zero divisor. -/
def odiv : Option ℚ → Option ℚ → Option ℚ
  | some a, some c => jdiv a c
  | _, _ => none

/-- Sum of a list of JS numbers starting from 0 (`none` absorbing). -/
def osum (l : List (Option ℚ)) : Option ℚ :=
  l.foldl oadd (some 0)

/-- Byte offsets `0, 4, 8, ...` visited by a JS loop `for (i = 0; i < data.length; i += 4)`. -/
def pixelOffs (b : ImageData) : List ℕ :=
  (List.range ((b.data.length + 3) / 4)).map (· * 4)

/-- `AIComposer.symmetryAnalysis`: mean over every row and every column of the
left half (`x < width/2`, hence `⌈width/2⌉` columns) of
`1 - |leftBrightness - rightBrightness| / 255`. -/
def symmetryAnalysis (b : ImageData) : ℚ :=
  let cols := (b.width + 1) / 2
  let total : ℚ :=
    ((List.range b.height).map (fun y =>
      ((List.range cols).map (fun x =>
        1 - |grayAt b x y - grayAt b (b.width - 1 - x) y| / 255)).sum)).sum
  total / ((b.height * cols : ℕ) : ℚ)

/-- `AIComposer.leadingLinesAnalysis`: the fraction of pixels whose edge
magnitude exceeds 50 (squared: 2500), against a 10% budget, capped at 1.
This edge-density statistic is the leading-lines sub-score of the composition
score; the Hough vote lives in `AdvancedImageAnalysis.detectLeadingLines`. -/
def leadingLinesAnalysis (b : ImageData) : ℚ :=
  let es := detectEdges b
  let cnt := ((List.range (b.width * b.height)).filter (fun i =>
    match es.getD i none with
    | some q => decide (2500 < q)
    | none => false)).length
  min 1 ((cnt : ℚ) / ((b.width * b.height : ℕ) * (1 / 10 : ℚ)))

/-- `AIComposer.depthAnalysis`: fraction of pixels whose channel-difference
contrast `|r-g| + |g-b| + |b-r|` exceeds 30. -/
def depthAnalysis (b : ImageData) : ℚ :=
  let offs := pixelOffs b
  let cnt := (offs.filter (fun i =>
    decide (30 < |byte b i - byte b (i + 1)| + |byte b (i + 1) - byte b (i + 2)|
      + |byte b (i + 2) - byte b i|))).length
  (cnt : ℚ) / (offs.length : ℚ)

/-- `AIComposer.analyzeMood`: `1 - |warmRatio - coolRatio|`, where a pixel is
warm when `r > g ∧ r > b` and cool when `b > r ∧ b > g`. -/
def analyzeMood (b : ImageData) : ℚ :=
  let offs := pixelOffs b
  let warm := (offs.filter (fun i =>
    decide (byte b (i + 1) < byte b i ∧ byte b (i + 2) < byte b i))).length
  let cool := (offs.filter (fun i =>
    decide (byte b i < byte b (i + 2) ∧ byte b (i + 1) < byte b (i + 2)))).length
  1 - |(warm : ℚ) / (offs.length : ℚ) - (cool : ℚ) / (offs.length : ℚ)|

/-- `AIComposer.analyzeVisualInterest`: fraction of pixels whose edge magnitude
exceeds 20 (squared: 400), against a 30% budget, capped at 1. -/
def analyzeVisualInterest (b : ImageData) : ℚ :=
  let es := detectEdges b
  let cnt := ((List.range (b.width * b.height)).filter (fun i =>
    match es.getD i none with
    | some q => decide (400 < q)
    | none => false)).length
  min 1 ((cnt : ℚ) / ((b.width * b.height : ℕ) * (3 / 10 : ℚ)))

/-- Color triples sampled by `analyzeColorHarmony` (byte stride 16 = every 4th pixel). -/
def harmonySamples (b : ImageData) : List (ℚ × ℚ × ℚ) :=
  (List.range ((b.data.length + 15) / 16)).map (fun k =>
    (byte b (16 * k), byte b (16 * k + 1), byte b (16 * k + 2)))

/-- Squared RGB distance between two color samples; the source compares
`sqrt` of this with 50 and 200, translated exactly to 2500 and 40000. -/
def colorDistSq (p q : ℚ × ℚ × ℚ) : ℚ :=
  (p.1 - q.1) ^ 2 + (p.2.1 - q.2.1) ^ 2 + (p.2.2 - q.2.2) ^ 2

/-- `AIComposer.analyzeColorHarmony`: fraction of sample pairs `i < j` that are
near-identical (distance < 50) or complementary (distance > 200), capped at 1.
With at most one sample the divisor `n(n-1)/2` is zero and the JS result is
NaN (`none`). -/
def analyzeColorHarmony (b : ImageData) : Option ℚ :=
  let colors := harmonySamples b
  let n := colors.length
  let cnt := ((List.range n).map (fun i =>
    ((List.range n).filter (fun j =>
      decide (i < j) &&
        (decide (colorDistSq (colors.getD i (0,0,0)) (colors.getD j (0,0,0)) < 2500) ||
         decide (40000 < colorDistSq (colors.getD i (0,0,0)) (colors.getD j (0,0,0)))))).length)).sum
  let pairs : ℚ := (n : ℚ) * ((n : ℚ) - 1) / 2
  if pairs = 0 then none else some (min 1 ((cnt : ℚ) / pairs))

/-- `AIComposer.analyzeArtisticAspects`:
`colorHarmony * 0.4 + mood * 0.3 + visualInterest * 0.3` (NaN propagates). -/
def analyzeArtisticAspects (b : ImageData) : Option ℚ :=
  (analyzeColorHarmony b).map (fun ch =>
    ch * (4 / 10) + analyzeMood b * (3 / 10) + analyzeVisualInterest b * (3 / 10))

/-- Rational square root: `some s` exactly when `q` is the square of a rational
(numerator and denominator are perfect squares), else `none` (irrational root). -/
def qSqrt (q : ℚ) : Option ℚ :=
  if 0 ≤ q.num ∧ Nat.sqrt q.num.toNat * Nat.sqrt q.num.toNat = q.num.toNat ∧
      Nat.sqrt q.den * Nat.sqrt q.den = q.den
  then some ((Nat.sqrt q.num.toNat : ℚ) / (Nat.sqrt q.den : ℚ))
  else none

/-- Byte read at a rational index: defined (JS: not `undefined`) only for a
whole-number index inside the array. -/
def byteQ (b : ImageData) (i : ℚ) : Option ℚ :=
  if 0 ≤ i ∧ i.den = 1 ∧ i.num.toNat < b.data.length
  then some (b.data.getD i.num.toNat 0 : ℚ)
  else none

/-- Pixel brightness read by `calculateVisualWeight` at rational byte index `i`:
`(data[i] + data[i+1] + data[i+2]) / 3`, `none` when any read is `undefined`. -/
def brightQ (b : ImageData) (i : ℚ) : Option ℚ :=
  match byteQ b i, byteQ b (i + 1), byteQ b (i + 2) with
  | some r, some g, some bl => some ((r + g + bl) / 3)
  | _, _, _ => none

/-- One iteration of the `calculateVisualWeight` double loop at integer pixel
coordinates `(px, py)`.  The source computes the flat index as
`(py * Math.sqrt(data.length / 4) + px) * 4` — note `Math.sqrt(pixel count)`,
not `width` — guards it with `idx < data.length - 3`, and adds the brightness
(NaN when the index is fractional, since the reads are then `undefined`).
`some 0` models a skipped (guard-failed) iteration.  When `pixel count` is not
a perfect square its root is irrational, so for `py ≥ 1` the index is never a
whole number and the guard `py*s + px < (len-3)/4` is decided by squaring
(equality is impossible for an irrational root). -/
def vwContrib (b : ImageData) (py px : ℕ) : Option ℚ :=
  let len := b.data.length
  let P : ℚ := (len : ℚ) / 4
  match qSqrt P with
  | some s =>
      let idx : ℚ := ((py : ℚ) * s + (px : ℚ)) * 4
      if idx < (len : ℚ) - 3 then brightQ b idx else some 0
  | none =>
      if py = 0 then
        let idx : ℚ := (px : ℚ) * 4
        if idx < (len : ℚ) - 3 then brightQ b idx else some 0
      else
        let r : ℚ := ((len : ℚ) - 3) / 4 - (px : ℚ)
        if 0 < r ∧ ((py : ℚ)) ^ 2 * P < r ^ 2 then none else some 0

/-- `AIComposer.calculateVisualWeight`: sums pixel brightness over the integer
grid `[⌊x⌋, ⌊x+w⌋) × [⌊y⌋, ⌊y+h⌋)` (arguments at every call site are
nonnegative, so `Math.floor` is `Nat.floor`). -/
def calculateVisualWeight (b : ImageData) (x y w h : ℚ) : Option ℚ :=
  let sX := ⌊x⌋₊
  let eX := ⌊x + w⌋₊
  let sY := ⌊y⌋₊
  let eY := ⌊y + h⌋₊
  osum (((List.range (eY - sY)).map (fun j =>
    ((List.range (eX - sX)).map (fun i => vwContrib b (sY + j) (sX + i))))).flatten)

/-- `AIComposer.balanceAnalysis`: visual weights of the left/right and top/bottom
halves; score `= ((1 - |L-R|/max(L,R)) + (1 - |T-B|/max(T,B))) / 2`.
An all-dark half pair gives `0/0 = NaN` (`none`). -/
def balanceAnalysis (b : ImageData) : Option ℚ :=
  let w : ℚ := (b.width : ℚ)
  let h : ℚ := (b.height : ℚ)
  let leftWeight := calculateVisualWeight b 0 0 (w / 2) h
  let rightWeight := calculateVisualWeight b (w / 2) 0 (w / 2) h
  let topWeight := calculateVisualWeight b 0 0 w (h / 2)
  let bottomWeight := calculateVisualWeight b 0 (h / 2) w (h / 2)
  let hB := osub (some 1) (odiv (oabs (osub leftWeight rightWeight)) (omax leftWeight rightWeight))
  let vB := osub (some 1) (odiv (oabs (osub topWeight bottomWeight)) (omax topWeight bottomWeight))
  odiv (oadd hB vB) (some 2)

/-- `AIComposer.analyzeTechnicalAspects`:
`sharpness*0.4 + (1 - |exposure - 0.5|*2)*0.4 + (1 - noise)*0.2` with sharpness
the fraction of edge-map cells above 30 (squared: 900; JS `filter` skips array
holes), exposure the mean pixel brightness over 255, and noise the brightness
standard deviation over 255. -/
noncomputable def analyzeTechnicalAspects (b : ImageData) : ℝ :=
  let es := detectEdges b
  let edgePixels := (es.filter (fun e =>
    match e with
    | some q => decide (900 < q)
    | none => false)).length
  let sharpness : ℚ := (edgePixels : ℚ) / (es.length : ℚ)
  let offs := pixelOffs b
  let pixCount : ℚ := (b.data.length : ℚ) / 4
  let totalBrightness : ℚ := (offs.map (fun i => (byte b i + byte b (i + 1) + byte b (i + 2)) / 3)).sum
  let exposure : ℚ := totalBrightness / pixCount / 255
  let avgBrightness : ℚ := totalBrightness / pixCount
  let brightnessVariance : ℚ :=
    (offs.map (fun i => ((byte b i + byte b (i + 1) + byte b (i + 2)) / 3 - avgBrightness) ^ 2)).sum
  let noise : ℝ := Real.sqrt ((brightnessVariance / pixCount : ℚ)) / 255
  (sharpness : ℝ) * (4 / 10) + ((1 - |exposure - 1 / 2| * 2 : ℚ) : ℝ) * (4 / 10) +
    (1 - noise) * (2 / 10)

/-- `AIComposer.analyzeCompositionRules`: the unweighted mean of the six rule
scores, iterated in object-literal insertion order (ruleOfThirds, goldenRatio,
symmetry, leadingLines, balance, depth); a NaN sub-score poisons the mean. -/
noncomputable def analyzeCompositionRules (b : ImageData) (crop : Option CropSelection) : Option ℝ :=
  match goldenRatioAnalysis b crop, balanceAnalysis b with
  | some g, some bal =>
      some ((ruleOfThirdsAnalysis b crop + (g : ℝ) + (symmetryAnalysis b : ℝ)
        + (leadingLinesAnalysis b : ℝ) + (bal : ℝ) + (depthAnalysis b : ℝ)) / 6)
  | _, _ => none

/-- The scores assembled by `AIComposer.analyzeComposition` (the feedback string
lists built by `generateFeedback` carry no numeric content and are omitted). -/
structure CompositionAnalysis where
  technicalScore : ℝ
  artisticScore : Option ℚ
  compositionScore : Option ℝ
  overallScore : Option ℝ

/-- `AIComposer.analyzeComposition`:
`overallScore = technical*0.3 + artistic*0.3 + composition*0.4`. -/
noncomputable def analyzeComposition (b : ImageData) (crop : Option CropSelection) :
    CompositionAnalysis :=
  let t := analyzeTechnicalAspects b
  let a := analyzeArtisticAspects b
  let c := analyzeCompositionRules b crop
  { technicalScore := t
    artisticScore := a
    compositionScore := c
    overallScore :=
      match a, c with
      | some aq, some cr => some (t * (3 / 10) + (aq : ℝ) * (3 / 10) + cr * (4 / 10))
      | _, _ => none }

/-- Iteration count of a JS loop `for (v = start; v < start + extent; v += 1)`:
`⌈extent⌉` iterations when the extent is positive, none otherwise. -/
def qIters (extent : ℚ) : ℕ := (⌈extent⌉).toNat

/-- Weight of one quadrant in `AdvancedImageAnalysis.calculateBalance`: sums
`(data[(y*width+x)*4] + ... + 2) / 3` over `y = qy, qy+1, ... < qy + qh` and
`x = qx, ... < qx + qw`.  For odd dimensions the loop variables are half-integers
and every read is `undefined`, so the weight is NaN (`none`). -/
def quadWeight (b : ImageData) (qx qy qw qh : ℚ) : Option ℚ :=
  osum (((List.range (qIters qh)).map (fun j =>
    (List.range (qIters qw)).map (fun i =>
      brightQ b (((qy + (j : ℚ)) * (b.width : ℚ) + (qx + (i : ℚ))) * 4)))).flatten)

/-- `AdvancedImageAnalysis.calculateBalance`: the four quadrant weights,
normalized by their total; score `= (Σ (1 - |wᵢ/total - 0.25|)) / 4`. -/
def calculateBalance (b : ImageData) : Option ℚ :=
  let w : ℚ := (b.width : ℚ)
  let h : ℚ := (b.height : ℚ)
  let q1 := quadWeight b 0 0 (w / 2) (h / 2)
  let q2 := quadWeight b (w / 2) 0 (w / 2) (h / 2)
  let q3 := quadWeight b 0 (h / 2) (w / 2) (h / 2)
  let q4 := quadWeight b (w / 2) (h / 2) (w / 2) (h / 2)
  let total := oadd (oadd (oadd (oadd (some 0) q1) q2) q3) q4
  let score := osum [
    osub (some 1) (oabs (osub (odiv q1 total) (some (1 / 4)))),
    osub (some 1) (oabs (osub (odiv q2 total) (some (1 / 4)))),
    osub (some 1) (oabs (osub (odiv q3 total) (some (1 / 4)))),
    osub (some 1) (oabs (osub (odiv q4 total) (some (1 / 4))))]
  odiv score (some 4)

/-- Sampled x coordinates `0, 2, 4, ... < width` of the Hough vote loops. -/
def sampleXs (b : ImageData) : List ℕ := (List.range ((b.width + 1) / 2)).map (· * 2)

/-- Sampled y coordinates `0, 2, 4, ... < height` of the Hough vote loops. -/
def sampleYs (b : ImageData) : List ℕ := (List.range ((b.height + 1) / 2)).map (· * 2)

/-- Angles `0, 5, ..., 175` degrees of the Hough loop. -/
def houghAngles : List ℕ := (List.range 36).map (· * 5)

/-- Perpendicular distances `0, 10, 20, ...` strictly below the buffer diagonal
`sqrt(width² + height²)`; the comparison `d < sqrt(S)` is decided exactly as
`d² < S`. -/
def houghDists (b : ImageData) : List ℕ :=
  ((List.range (b.width + b.height + 1)).map (· * 10)).filter
    (fun d => decide (d * d < b.width ^ 2 + b.height ^ 2))

/-- Membership of sample `(x, y)` on the Hough line `(angle, dist)`:
`|x·cos(angle·π/180) + y·sin(angle·π/180) - dist| < 5`. -/
noncomputable def houghCond (x y ang d : ℕ) : Prop :=
  |(x : ℝ) * Real.cos ((ang : ℝ) * Real.pi / 180) +
    (y : ℝ) * Real.sin ((ang : ℝ) * Real.pi / 180) - (d : ℝ)| < 5

/-- Votes for the Hough line `(ang, d)`: sampled pixels whose edge magnitude
exceeds 20 (squared: 400) and which lie within 5 units of the line.  The JS
`&&` short-circuits, so the trigonometric test is only reached past the edge
test. -/
noncomputable def houghVotes (b : ImageData) (ang d : ℕ) : ℕ :=
  let es := detectEdges b
  (((sampleYs b).map (fun y =>
    ((sampleXs b).filter (fun x =>
      (match es.getD (y * b.width + x) none with
       | some q => decide (400 < q)
       | none => false) &&
      (@decide (houghCond x y ang d) (Classical.propDecidable _)))).length)).sum)

/-- Hough lines retained by `AdvancedImageAnalysis.detectLeadingLines`:
`(angle, dist, votes)` triples with more than 50 votes, in loop order. -/
noncomputable def houghLines (b : ImageData) : List (ℕ × ℕ × ℕ) :=
  ((houghAngles).map (fun ang =>
    (houghDists b).filterMap (fun d =>
      let v := houghVotes b ang d
      if 50 < v then some (ang, d, v) else none))).flatten

/-- The score of `AdvancedImageAnalysis.detectLeadingLines`: the source sorts
the surviving lines by votes (descending, stable) in place and returns
`min(lines[0].votes / 100, 1)`, or 0 when no line survived. -/
noncomputable def detectLeadingLinesScore (b : ImageData) : ℚ :=
  match (houghLines b).insertionSort (fun p q => q.2.2 ≤ p.2.2) with
  | [] => 0
  | l0 :: _ => min ((l0.2.2 : ℚ) / 100) 1

/-- A classified sample point fed to `AdvancedImageAnalysis.groupRegions`. -/
structure RegionPoint where
  x : ℚ
  y : ℚ
  score : ℚ
deriving DecidableEq

/-- JS `Math.sqrt((p.x-q.x)² + (p.y-q.y)²) <= m`, decided exactly by squaring
(for `m < 0` the square root, being nonnegative, can never be `≤ m`). -/
def withinB (p q : RegionPoint) (m : ℚ) : Bool :=
  decide (0 ≤ m) && decide ((p.x - q.x) ^ 2 + (p.y - q.y) ^ 2 ≤ m ^ 2)

/-- A cluster produced by `AdvancedImageAnalysis.groupRegions`. -/
structure Cluster where
  members : List RegionPoint
  minX : ℚ
  minY : ℚ
  maxX : ℚ
  maxY : ℚ
  centerX : ℚ
  centerY : ℚ
  totalScore : ℚ
  averageScore : ℚ

/-- Builds one cluster from its seed and the absorbed points, mirroring the
source's incremental bounds/total updates: bounds fold `min`/`max` from the
seed, `totalScore` accumulates from the seed's score, the center is the bounds
midpoint and `averageScore = totalScore / #members`. -/
def mkCluster (seed : RegionPoint) (absorbed : List RegionPoint) : Cluster :=
  let members := seed :: absorbed
  let mnX := absorbed.foldl (fun a s => min a s.x) seed.x
  let mnY := absorbed.foldl (fun a s => min a s.y) seed.y
  let mxX := absorbed.foldl (fun a s => max a s.x) seed.x
  let mxY := absorbed.foldl (fun a s => max a s.y) seed.y
  let total := absorbed.foldl (fun a s => a + s.score) seed.score
  { members := members
    minX := mnX, minY := mnY, maxX := mxX, maxY := mxY
    centerX := (mnX + mxX) / 2, centerY := (mnY + mxY) / 2
    totalScore := total
    averageScore := total / (members.length : ℚ) }

/-- `AdvancedImageAnalysis.groupRegions`: single-pass greedy grouping.  The
source walks the points in scan order with a `visited` set; the first unvisited
point seeds a cluster and absorbs every later unvisited point within
`maxDistance` of the SEED.  Equivalently: seed on the head, absorb the
matching part of the tail, recurse on the rest. -/
def groupRegions (l : List RegionPoint) (maxDistance : ℚ) : List Cluster :=
  match l with
  | [] => []
  | r :: rest =>
      let near := rest.filter (fun s => withinB r s maxDistance)
      let far := rest.filter (fun s => ! withinB r s maxDistance)
      mkCluster r near :: groupRegions far maxDistance
termination_by l.length
decreasing_by
  simp only [List.length_cons]
  exact Nat.lt_succ_of_le (List.length_filter_le _ _)

/-- `ImageUtils.getBrightness`: mean perceptual luma
`(0.299r + 0.587g + 0.114b) / 255`; NaN (`none`) for an empty buffer. -/
def getBrightness (b : ImageData) : Option ℚ :=
  let offs := pixelOffs b
  if offs.length = 0 then none
  else some ((offs.map (fun i =>
    ((299 / 1000 : ℚ) * byte b i + (587 / 1000 : ℚ) * byte b (i + 1) +
      (114 / 1000 : ℚ) * byte b (i + 2)) / 255)).sum / (offs.length : ℚ))

/-- Byte offsets `0, 40, 80, ...` sampled by `getDominantColors`
("every 10th pixel"). -/
def sampleOffs40 (b : ImageData) : List ℕ :=
  (List.range ((b.data.length + 39) / 40)).map (· * 40)

/-- 32-floor channel quantization `Math.floor(v / 32) * 32`. -/
def quantize (v : ℕ) : ℕ := v / 32 * 32

/-- Increment the count of `k` in an insertion-ordered histogram (JS object
with string keys: first occurrence fixes the position). -/
def bump (k : ℕ × ℕ × ℕ) : List ((ℕ × ℕ × ℕ) × ℕ) → List ((ℕ × ℕ × ℕ) × ℕ)
  | [] => [(k, 1)]
  | (k2, c) :: rest => if k = k2 then (k2, c + 1) :: rest else (k2, c) :: bump k rest

/-- The quantized-color histogram of `getDominantColors`, in key insertion
order (JS `Object.entries` order for string keys). -/
def colorCounts (b : ImageData) : List ((ℕ × ℕ × ℕ) × ℕ) :=
  (sampleOffs40 b).foldl (fun acc i =>
    bump (quantize (b.data.getD i 0), quantize (b.data.getD (i + 1) 0),
      quantize (b.data.getD (i + 2) 0)) acc) []

/-- `ImageUtils.getDominantColors`: histogram entries sorted by count
(descending, stable — JS sort), top `numColors`, mapped back to their RGB
triples (the source round-trips the triple through a `"r,g,b"` string key,
which is injective). -/
def getDominantColors (b : ImageData) (numColors : ℕ) : List (ℕ × ℕ × ℕ) :=
  (((colorCounts b).insertionSort (fun p q => q.2 ≤ p.2)).take numColors).map (·.1)

/-- Iteration count of a JS loop `for (v = 0; v < bound; v += step)` with a
positive step: the least `k` with `k·step ≥ bound`.  A non-positive step is
unreachable from a valid buffer (the source would not terminate). -/
def stepCount (bound step : ℚ) : ℕ :=
  if 0 < step then (⌈bound / step⌉).toNat else 0

/-- The loop values `0, step, 2·step, ... < bound`. -/
def stepVals (bound step : ℚ) : List ℚ :=
  (List.range (stepCount bound step)).map (fun k => (k : ℚ) * step)

/-- Edge-map entry at a rational index: JS array access, `undefined` (`none`)
unless the index is a whole number naming a filled cell. -/
def edgeAtQ (es : List (Option ℚ)) (i : ℚ) : Option ℚ :=
  if 0 ≤ i ∧ i.den = 1 then es.getD i.num.toNat none else none

/-- Edge-magnitude sum of one ROI window at offset `(x, y)`: the source adds
`edges[idx]` whenever it is truthy (holes and zeros contribute nothing); the
stored squares are unsquared here by `Real.sqrt`. -/
noncomputable def windowEdgeSum (es : List (Option ℚ)) (w : ℕ) (y x ws : ℚ) : ℝ :=
  ((stepVals ws 1).map (fun wy =>
    ((stepVals ws 1).map (fun wx =>
      match edgeAtQ es ((y + wy) * (w : ℚ) + (x + wx)) with
      | some q => if q ≠ 0 then Real.sqrt (q : ℝ) else 0
      | none => (0 : ℝ))).sum)).sum

/-- A region of interest / crop rectangle in normalized coordinates.  Literal
crop objects in the source carry no `score` field (`none`); ROI regions carry
their edge density. -/
structure Region where
  x : ℚ
  y : ℚ
  width : ℚ
  height : ℚ
  score : Option ℝ

open Classical in
/-- `ImageUtils.findRegionsOfInterest`: square window of side `min(w,h)/4`
stepped by half its side; windows whose mean truthy-edge magnitude exceeds 10
become normalized regions, sorted by density (descending, stable), top 5. -/
noncomputable def findRegionsOfInterest (b : ImageData) : List Region :=
  let es := detectEdges b
  let ws : ℚ := (min b.width b.height : ℚ) / 4
  let pc : ℕ := (stepCount ws 1) ^ 2
  let cand : List (ℚ × ℚ × ℝ) :=
    ((stepVals ((b.height : ℚ) - ws) (ws / 2)).map (fun y =>
      (stepVals ((b.width : ℚ) - ws) (ws / 2)).map (fun x =>
        (x, y, windowEdgeSum es b.width y x ws / (pc : ℝ))))).flatten
  let dense := (cand.filter (fun c => 10 < c.2.2)).insertionSort (fun p q => q.2.2 ≤ p.2.2)
  (dense.map (fun c =>
    { x := c.1 / (b.width : ℚ), y := c.2.1 / (b.height : ℚ),
      width := ws / (b.width : ℚ), height := ws / (b.height : ℚ),
      score := some c.2.2 })).take 5

/-- An AI crop suggestion. -/
structure Suggestion where
  name : String
  description : String
  crop : Region
  score : ℚ

/-- The fixed "Balanced Composition" suggestion (always emitted, score 75). -/
def balancedSuggestion : Suggestion :=
  { name := "Balanced Composition"
    description := "Centered crop with balanced elements"
    crop := { x := 2/10, y := 2/10, width := 6/10, height := 6/10, score := none }
    score := 75 }

/-- The "Focus on Interest" suggestion built from the best ROI (score 85). -/
def focusSuggestion (bestROI : Region) : Suggestion :=
  { name := "Focus on Interest"
    description := "Crop focused on the most interesting region"
    crop := bestROI
    score := 85 }

/-- The conditional "Dark Image Enhancement" suggestion (score 70). -/
def darkSuggestion : Suggestion :=
  { name := "Dark Image Enhancement"
    description := "Crop to emphasize brighter areas"
    crop := { x := 1/10, y := 1/10, width := 8/10, height := 8/10, score := none }
    score := 70 }

/-- The fixed "Rule of Thirds" suggestion (always emitted, score 80). -/
def thirdsSuggestion : Suggestion :=
  { name := "Rule of Thirds"
    description := "Classic composition following rule of thirds"
    crop := { x := 33/100, y := 33/100, width := 34/100, height := 34/100, score := none }
    score := 80 }

/-- The fixed "Golden Ratio" suggestion (always emitted, score 90):
`cropWidth = 0.6`, `cropHeight = 0.6 / 1.618 = 300/809`. -/
def goldenSuggestion : Suggestion :=
  { name := "Golden Ratio"
    description := "Crop following the golden ratio"
    crop :=
      { x := 2/10, y := 2/10, width := 6/10
        height := (6/10 : ℚ) / (1618/1000 : ℚ), score := none }
    score := 90 }

/-- JS `NaN < c` is false; brightness is `none` (NaN) only for an empty buffer. -/
def obLt (a : Option ℚ) (c : ℚ) : Bool :=
  match a with
  | some q => decide (q < c)
  | none => false

/-- The suggestions of `AISuggestions.generateCropSuggestions` in generation
order, before the final sort.  The source also computes the dominant colors but
never uses them. -/
noncomputable def suggestionPool (b : ImageData) : List Suggestion :=
  let brightness := getBrightness b
  let rois := findRegionsOfInterest b
  [balancedSuggestion] ++
    (match rois with
     | [] => []
     | r0 :: _ => [focusSuggestion r0]) ++
    (if obLt brightness (4/10) then [darkSuggestion] else []) ++
    [thirdsSuggestion, goldenSuggestion]

/-- The descending-score order used by the final `sort((a, b) => b.score - a.score)`. -/
def scoreGE (a c : Suggestion) : Prop := c.score ≤ a.score

instance : DecidableRel scoreGE := fun a c => inferInstanceAs (Decidable (c.score ≤ a.score))

instance : IsTotal Suggestion scoreGE := ⟨fun a c => le_total c.score a.score⟩

instance : IsTrans Suggestion scoreGE := ⟨fun _ _ _ h1 h2 => le_trans h2 h1⟩

/-- `AISuggestions.generateCropSuggestions`: the pool sorted by score,
descending; JS `Array.prototype.sort` is stable, modelled by insertion sort. -/
noncomputable def generateCropSuggestions (b : ImageData) : List Suggestion :=
  (suggestionPool b).insertionSort scoreGE

/-! Concrete test buffers. -/

/-- A uniform single-color RGBA buffer (alpha 255). -/
def uniformBuffer (w h r g bl : ℕ) : ImageData :=
  ⟨w, h, (List.range (4 * w * h)).map (fun i => [r, g, bl, 255].getD (i % 4) 0)⟩

/-! ### C8 -/

/-- C8: when no crop rectangle is supplied, the rule-of-thirds sub-score and the
golden-ratio sub-score each evaluate to the neutral value 0.5. -/
theorem c8_no_crop_neutral (b : ImageData) :
    ruleOfThirdsAnalysis b none = 1 / 2 ∧ goldenRatioAnalysis b none = some (1 / 2) :=
  ⟨rfl, rfl⟩

/-! ### C9 -/

/-- C9: for width = height = 144, the Fibonacci grid points have x- and
y-fractions exactly `fib[i]/144` over `fib = [1,1,2,3,5,8,13,21,34,55,89,144]`
(the generated list runs over `i = 1..11`; the fraction `fib[0]/144 = 1/144`
is also realized, by the `i = 1` point). -/
theorem c9_fibonacci_grid_144 :
    ((generateFibonacciGrid 144 144).map (fun p => p.x / 144) =
      (fibTable.drop 1).map (fun f => (f : ℚ) / 144)) ∧
    ((generateFibonacciGrid 144 144).map (fun p => p.y / 144) =
      (fibTable.drop 1).map (fun f => (f : ℚ) / 144)) ∧
    (∀ i ∈ List.range fibTable.length, ∃ p ∈ generateFibonacciGrid 144 144,
      p.x / 144 = (fibTable.getD i 0 : ℚ) / 144 ∧ p.y / 144 = (fibTable.getD i 0 : ℚ) / 144) := by
  refine ⟨?_, ?_, ?_⟩
  · simp [generateFibonacciGrid, fibTable]
    rw [show List.range' 1 11 = [1, 2, 3, 4, 5, 6, 7, 8, 9, 10, 11] from rfl]
    norm_num
  · simp [generateFibonacciGrid, fibTable]
    rw [show List.range' 1 11 = [1, 2, 3, 4, 5, 6, 7, 8, 9, 10, 11] from rfl]
    norm_num
  · simp [generateFibonacciGrid, fibTable]
    intro i hi
    rcases Nat.eq_zero_or_pos i with h0 | h1
    · subst h0
      exact ⟨1, by omega, by norm_num⟩
    · exact ⟨i, by omega, rfl⟩

/-! ### C1 -/

/-- C1 (counterexample): on a valid 3×3 buffer the first border cell of the edge
map is a JS array hole (`undefined`, modelled `none`), not the number 0 — so the
claim that border entries "are exactly 0" fails on the code. -/
theorem c1_border_not_zero :
    ValidBuffer (uniformBuffer 3 3 255 255 255) ∧
    (detectEdges (uniformBuffer 3 3 255 255 255)).get? 0 = some none ∧
    ∀ q : ℚ, (detectEdges (uniformBuffer 3 3 255 255 255)).get? 0 ≠ some (some q) := by
  refine ⟨by decide, by decide, ?_⟩
  intro q h
  rw [show (detectEdges (uniformBuffer 3 3 255 255 255)).get? 0 = some none from by decide] at h
  exact Option.noConfusion (Option.some.inj h)

/-- C1 (amended): every cell of the edge map that is filled holds a nonnegative
value; border cells (row/column 0 and last) are left as holes (`undefined`,
which every consumer treats like 0), and for width < 3 or height < 3 the whole
map consists of holes. -/
theorem c1_detectEdges_spec (b : ImageData) (i : ℕ) (hi : i < b.width * b.height) :
    ((i % b.width = 0 ∨ i % b.width = b.width - 1 ∨ i / b.width = 0 ∨
        i / b.width = b.height - 1) → (detectEdges b).get? i = some none) ∧
    (∀ q : ℚ, (detectEdges b).get? i = some (some q) → 0 ≤ q) ∧
    ((b.width < 3 ∨ b.height < 3) → (detectEdges b).get? i = some none) := by
  have hmap : (detectEdges b).get? i =
      some (if 1 ≤ i % b.width ∧ i % b.width < b.width - 1 ∧ 1 ≤ i / b.width ∧
          i / b.width < b.height - 1 then some (magSq b (i % b.width) (i / b.width))
        else none) := by
    unfold detectEdges
    rw [List.get?_map, List.get?_range hi]
    rfl
  refine ⟨?_, ?_, ?_⟩
  · intro hb
    rw [hmap]
    rcases hb with h0 | h0 | h0 | h0 <;>
      · rw [if_neg]; rintro ⟨h1, h2, h3, h4⟩; omega
  · intro q hq
    rw [hmap] at hq
    by_cases hc : 1 ≤ i % b.width ∧ i % b.width < b.width - 1 ∧ 1 ≤ i / b.width ∧
        i / b.width < b.height - 1
    · rw [if_pos hc] at hq
      have : magSq b (i % b.width) (i / b.width) = q := by
        exact Option.some.inj (Option.some.inj hq)
      rw [← this]
      unfold magSq
      positivity
    · rw [if_neg hc] at hq
      exact absurd (Option.some.inj hq) (fun h => Option.noConfusion h)
  · intro hsmall
    rw [hmap, if_neg]
    rintro ⟨h1, h2, h3, h4⟩
    rcases hsmall with h | h <;> omega

/-- C1 (witness): the amended theorem applied to the concrete 3×3 buffer at the
corner index 0. -/
theorem c1_detectEdges_spec_witness :
    (0 < (uniformBuffer 3 3 255 255 255).width * (uniformBuffer 3 3 255 255 255).height) ∧
    (((0 % (uniformBuffer 3 3 255 255 255).width = 0 ∨
        0 % (uniformBuffer 3 3 255 255 255).width = (uniformBuffer 3 3 255 255 255).width - 1 ∨
        0 / (uniformBuffer 3 3 255 255 255).width = 0 ∨
        0 / (uniformBuffer 3 3 255 255 255).width = (uniformBuffer 3 3 255 255 255).height - 1) →
      (detectEdges (uniformBuffer 3 3 255 255 255)).get? 0 = some none) ∧
    (∀ q : ℚ, (detectEdges (uniformBuffer 3 3 255 255 255)).get? 0 = some (some q) → 0 ≤ q) ∧
    (((uniformBuffer 3 3 255 255 255).width < 3 ∨ (uniformBuffer 3 3 255 255 255).height < 3) →
      (detectEdges (uniformBuffer 3 3 255 255 255)).get? 0 = some none)) :=
  ⟨by decide, c1_detectEdges_spec (uniformBuffer 3 3 255 255 255) 0 (by decide)⟩

/-! ### C10 -/

/-- Folding `+ score` from an initial value is the initial value plus the score sum. -/
theorem foldl_add_score (c : ℚ) (l : List RegionPoint) :
    l.foldl (fun a s => a + s.score) c = c + (l.map RegionPoint.score).sum := by
  induction l generalizing c with
  | nil => simp
  | cons x t ih => simp [ih, add_assoc]

/-- Helper for C10: the clusters' member lists concatenate to a permutation of
the input. -/
theorem groupRegions_perm (l : List RegionPoint) (m : ℚ) :
    (((groupRegions l m).map Cluster.members).flatten).Perm l := by
  match l with
  | [] => rw [groupRegions]; simp
  | r :: rest =>
    have ihf := groupRegions_perm (rest.filter (fun s => ! withinB r s m)) m
    rw [groupRegions]
    simp only [List.map_cons, List.flatten_cons, mkCluster, List.cons_append]
    have h1 : (rest.filter (fun s => withinB r s m) ++
        ((groupRegions (rest.filter (fun s => ! withinB r s m)) m).map
          Cluster.members).flatten).Perm
        (rest.filter (fun s => withinB r s m) ++ rest.filter (fun s => ! withinB r s m)) :=
      List.Perm.append_left _ ihf
    exact (h1.trans (List.filter_append_perm _ rest)).cons r
termination_by l.length
decreasing_by
  simp only [List.length_cons]
  exact Nat.lt_succ_of_le (List.length_filter_le _ _)

/-- Helper for C10: every cluster's reported confidence is the mean score. -/
theorem groupRegions_avg (l : List RegionPoint) (m : ℚ) :
    ∀ c ∈ groupRegions l m,
      c.averageScore = (c.members.map RegionPoint.score).sum / (c.members.length : ℚ) := by
  match l with
  | [] => rw [groupRegions]; simp
  | r :: rest =>
    have ihf := groupRegions_avg (rest.filter (fun s => ! withinB r s m)) m
    rw [groupRegions]
    intro c hc
    rcases List.mem_cons.mp hc with hc0 | hcr
    · subst hc0
      simp [mkCluster, foldl_add_score]
    · exact ihf c hcr
termination_by l.length
decreasing_by
  simp only [List.length_cons]
  exact Nat.lt_succ_of_le (List.length_filter_le _ _)

/-- C10: `groupRegions` partitions its input — the concatenation of the
clusters' member lists is a permutation of the input (every point lands in
exactly one cluster) — and every cluster reports as its `averageScore` the
arithmetic mean of its members' scores. -/
theorem c10_groupRegions_partition_mean (l : List RegionPoint) (m : ℚ) :
    (((groupRegions l m).map Cluster.members).flatten).Perm l ∧
    ∀ c ∈ groupRegions l m,
      c.averageScore = (c.members.map RegionPoint.score).sum / (c.members.length : ℚ) :=
  ⟨groupRegions_perm l m, groupRegions_avg l m⟩

/-! ### C7 -/

/-- Byte reads from a uniform buffer cycle through the four channel values. -/
theorem uniform_getD (w h r g bl i : ℕ) :
    (uniformBuffer w h r g bl).data.getD i 0 =
      if i < 4 * w * h then [r, g, bl, 255].getD (i % 4) 0 else 0 := by
  unfold uniformBuffer
  by_cases hi : i < 4 * w * h
  · rw [if_pos hi]
    rw [List.getD_eq_getElem?_getD, List.getElem?_map, List.getElem?_range hi]
    rfl
  · rw [if_neg hi]
    rw [List.getD_eq_getElem?_getD, List.getElem?_map,
      List.getElem?_eq_none (by simp only [List.length_range]; omega)]
    rfl

/-- Folding `bump` over indices that all map to the same key accumulates a
single histogram entry. -/
theorem foldl_bump_same (f : ℕ → ℕ × ℕ × ℕ) (k : ℕ × ℕ × ℕ) :
    ∀ (idxs : List ℕ) (m : ℕ), (∀ i ∈ idxs, f i = k) →
      idxs.foldl (fun acc i => bump (f i) acc) [(k, m)] = [(k, m + idxs.length)] := by
  intro idxs
  induction idxs with
  | nil => intro m _; simp
  | cons a t ih =>
      intro m hall
      simp only [List.foldl_cons]
      rw [hall a (List.mem_cons_self a t)]
      rw [show bump k [(k, m)] = [(k, m + 1)] from by simp [bump]]
      rw [ih (m + 1) (fun i hi => hall i (List.mem_cons_of_mem a hi))]
      simp only [List.length_cons]
      rw [show m + 1 + t.length = m + (t.length + 1) from by omega]

/-- Every sampled offset of the uniform (200,100,50) buffer quantizes to the
bucket (192,96,32). -/
theorem uniform_sample_key (w h : ℕ) (hw : 0 < w) (hh : 0 < h) :
    ∀ i ∈ sampleOffs40 (uniformBuffer w h 200 100 50),
      (quantize ((uniformBuffer w h 200 100 50).data.getD i 0),
       quantize ((uniformBuffer w h 200 100 50).data.getD (i + 1) 0),
       quantize ((uniformBuffer w h 200 100 50).data.getD (i + 2) 0)) = (192, 96, 32) := by
  intro i hi
  simp only [sampleOffs40, List.mem_map, List.mem_range] at hi
  obtain ⟨j, hj, rfl⟩ := hi
  have hlen : (uniformBuffer w h 200 100 50).data.length = 4 * (w * h) := by
    simp [uniformBuffer]; ring
  have hwh : 1 ≤ w * h := by nlinarith
  rw [hlen] at hj
  have hj40 : j * 40 + 2 < 4 * (w * h) := by omega
  rw [uniform_getD, uniform_getD, uniform_getD]
  rw [show 4 * w * h = 4 * (w * h) from by ring]
  rw [if_pos (by omega), if_pos (by omega), if_pos (by omega)]
  have e0 : (j * 40) % 4 = 0 := by omega
  have e1 : (j * 40 + 1) % 4 = 1 := by omega
  have e2 : (j * 40 + 2) % 4 = 2 := by omega
  rw [e0, e1, e2]
  rfl

/-- C7: on a buffer of the single exact color (200,100,50), `getDominantColors`
returns exactly the bucket (192,96,32), and the underlying histogram has exactly
one entry whose count is the full number of samples (a 100% frequency share). -/
theorem c7_dominant_single_color (w h : ℕ) (hw : 0 < w) (hh : 0 < h) :
    getDominantColors (uniformBuffer w h 200 100 50) 5 = [(192, 96, 32)] ∧
    colorCounts (uniformBuffer w h 200 100 50) =
      [((192, 96, 32), (sampleOffs40 (uniformBuffer w h 200 100 50)).length)] ∧
    0 < (sampleOffs40 (uniformBuffer w h 200 100 50)).length := by
  have hlen : (uniformBuffer w h 200 100 50).data.length = 4 * w * h := by
    simp [uniformBuffer]
  have hpos : 0 < (sampleOffs40 (uniformBuffer w h 200 100 50)).length := by
    simp only [sampleOffs40, List.length_map, List.length_range, hlen]
    have : 4 ≤ 4 * w * h := by nlinarith
    omega
  have hkey := uniform_sample_key w h hw hh
  have hcounts : colorCounts (uniformBuffer w h 200 100 50) =
      [((192, 96, 32), (sampleOffs40 (uniformBuffer w h 200 100 50)).length)] := by
    unfold colorCounts
    obtain ⟨a, t, hat⟩ :=
      List.exists_cons_of_ne_nil (List.length_pos.mp hpos)
    rw [hat]
    rw [hat] at hkey
    simp only [List.foldl_cons]
    rw [hkey a (List.mem_cons_self a t)]
    show t.foldl (fun acc i => bump _ acc) [((192, 96, 32), 1)] = _
    have := foldl_bump_same
      (fun i => (quantize ((uniformBuffer w h 200 100 50).data.getD i 0),
        quantize ((uniformBuffer w h 200 100 50).data.getD (i + 1) 0),
        quantize ((uniformBuffer w h 200 100 50).data.getD (i + 2) 0)))
      (192, 96, 32) t 1 (fun i hi => hkey i (List.mem_cons_of_mem a hi))
    rw [this]
    simp [Nat.add_comm]
  refine ⟨?_, hcounts, hpos⟩
  unfold getDominantColors
  rw [hcounts]
  rfl

/-- C7 (witness): the theorem applied to a concrete 1×1 buffer. -/
theorem c7_dominant_single_color_witness :
    (0 < 1 ∧ 0 < 1) ∧
    (getDominantColors (uniformBuffer 1 1 200 100 50) 5 = [(192, 96, 32)] ∧
     colorCounts (uniformBuffer 1 1 200 100 50) =
       [((192, 96, 32), (sampleOffs40 (uniformBuffer 1 1 200 100 50)).length)] ∧
     0 < (sampleOffs40 (uniformBuffer 1 1 200 100 50)).length) :=
  ⟨⟨Nat.one_pos, Nat.one_pos⟩, c7_dominant_single_color 1 1 Nat.one_pos Nat.one_pos⟩

/-! ### C5 -/

/-- Inserting into a list moves an element past strictly greater scores only, so
filtering by any fixed score commutes with the insertion. -/
theorem filter_orderedInsert_score (q : ℚ) (a : Suggestion) (l : List Suggestion) :
    (l.orderedInsert scoreGE a).filter (fun s => s.score = q) =
      if a.score = q then a :: l.filter (fun s => s.score = q)
      else l.filter (fun s => s.score = q) := by
  induction l with
  | nil =>
      by_cases ha : a.score = q <;> simp [List.orderedInsert, ha]
  | cons c t ih =>
      by_cases hac : scoreGE a c
      · by_cases ha : a.score = q <;> simp [List.orderedInsert, hac, ha]
      · have hlt : a.score < c.score := lt_of_not_le hac
        by_cases ha : a.score = q
        · have hc : ¬ c.score = q := by
            intro hcq
            rw [ha, ← hcq] at hlt
            exact lt_irrefl _ hlt
          simp [List.orderedInsert, hac, ha, hc, ih]
        · by_cases hc : c.score = q <;> simp [List.orderedInsert, hac, ha, hc, ih]

/-- The insertion sort of the suggestion list is stable: filtering by any fixed
score yields the same sublist before and after sorting. -/
theorem filter_insertionSort_score (q : ℚ) (l : List Suggestion) :
    (l.insertionSort scoreGE).filter (fun s => s.score = q) =
      l.filter (fun s => s.score = q) := by
  induction l with
  | nil => rfl
  | cons a t ih =>
      simp only [List.insertionSort]
      rw [filter_orderedInsert_score]
      by_cases ha : a.score = q <;> simp [ha, ih]

/-- C5: the crop-suggestion list is sorted in descending order of score, and is
a stable sort of the generation-order pool: for every score value, the
suggestions carrying that score appear in exactly their generation order. -/
theorem c5_suggestions_sorted_stable (b : ImageData) (hb : ValidBuffer b) :
    List.Sorted scoreGE (generateCropSuggestions b) ∧
    ∀ q : ℚ, (generateCropSuggestions b).filter (fun s => s.score = q) =
      (suggestionPool b).filter (fun s => s.score = q) :=
  ⟨List.sorted_insertionSort scoreGE _, fun q => filter_insertionSort_score q _⟩

/-- C5 (witness): the theorem applied to a concrete valid 1×1 buffer. -/
theorem c5_suggestions_sorted_stable_witness :
    ValidBuffer (uniformBuffer 1 1 10 20 30) ∧
    (List.Sorted scoreGE (generateCropSuggestions (uniformBuffer 1 1 10 20 30)) ∧
     ∀ q : ℚ, (generateCropSuggestions (uniformBuffer 1 1 10 20 30)).filter
        (fun s => s.score = q) =
      (suggestionPool (uniformBuffer 1 1 10 20 30)).filter (fun s => s.score = q)) :=
  ⟨by decide, c5_suggestions_sorted_stable (uniformBuffer 1 1 10 20 30) (by decide)⟩

/-! ### C6 -/

/-- C6: every suggestion list contains the golden-ratio suggestion with score
90, crop width fraction exactly 0.6 and height fraction `0.6/1.618 = 300/809`
(within `10⁻³` of the claimed 0.3708), and the balanced-composition suggestion
with score 75. -/
theorem c6_always_golden_balanced (b : ImageData) (hb : ValidBuffer b) :
    (goldenSuggestion ∈ generateCropSuggestions b ∧ goldenSuggestion.score = 90 ∧
      goldenSuggestion.crop.width = 6 / 10 ∧ goldenSuggestion.crop.height = 300 / 809 ∧
      |goldenSuggestion.crop.height - 3708 / 10000| < 1 / 1000) ∧
    (balancedSuggestion ∈ generateCropSuggestions b ∧ balancedSuggestion.score = 75) := by
  have hperm := List.perm_insertionSort scoreGE (suggestionPool b)
  have hg : goldenSuggestion ∈ suggestionPool b := by
    simp only [suggestionPool]
    exact List.mem_append.mpr (Or.inr (by simp))
  have hbal : balancedSuggestion ∈ suggestionPool b := by
    simp only [suggestionPool]
    exact List.mem_append.mpr (Or.inl (List.mem_append.mpr (Or.inl
      (List.mem_append.mpr (Or.inl (by simp))))))
  refine ⟨⟨hperm.mem_iff.mpr hg, rfl, rfl, ?_, ?_⟩, ⟨hperm.mem_iff.mpr hbal, rfl⟩⟩
  · show (6 / 10 : ℚ) / (1618 / 1000) = 300 / 809
    norm_num
  · show |(6 / 10 : ℚ) / (1618 / 1000) - 3708 / 10000| < 1 / 1000
    rw [abs_sub_lt_iff]
    constructor <;> norm_num

/-- C6 (witness): the theorem applied to a concrete valid 1×1 buffer. -/
theorem c6_always_golden_balanced_witness :
    ValidBuffer (uniformBuffer 1 1 40 50 60) ∧
    ((goldenSuggestion ∈ generateCropSuggestions (uniformBuffer 1 1 40 50 60) ∧
      goldenSuggestion.score = 90 ∧ goldenSuggestion.crop.width = 6 / 10 ∧
      goldenSuggestion.crop.height = 300 / 809 ∧
      |goldenSuggestion.crop.height - 3708 / 10000| < 1 / 1000) ∧
     (balancedSuggestion ∈ generateCropSuggestions (uniformBuffer 1 1 40 50 60) ∧
      balancedSuggestion.score = 75)) :=
  ⟨by decide, c6_always_golden_balanced (uniformBuffer 1 1 40 50 60) (by decide)⟩

/-! ### C4 -/

/-- A valid 3×3 buffer: rightmost pixel column white, the rest black.  Its only
interior pixel has gradient `(gx, gy) = (1020, 0)`, magnitude 1020. -/
def stripeBuffer : ImageData :=
  ⟨3, 3, [0, 0, 0, 255, 0, 0, 0, 255, 255, 255, 255, 255,
          0, 0, 0, 255, 0, 0, 0, 255, 255, 255, 255, 255,
          0, 0, 0, 255, 0, 0, 0, 255, 255, 255, 255, 255]⟩

/-- The squared Sobel magnitude at the center of `stripeBuffer` is `1020²`. -/
theorem stripe_magSq : magSq stripeBuffer 1 1 = 1040400 := by
  unfold magSq gxy
  rw [show (List.range 3) = [0, 1, 2] from rfl]
  simp only [List.foldl_cons, List.foldl_nil, sobelX, sobelY]
  norm_num [grayAt, grayP, byte, stripeBuffer, List.getD]

/-- The edge map of `stripeBuffer`: holes everywhere except the center. -/
theorem stripe_edges : detectEdges stripeBuffer =
    [none, none, none, none, some 1040400, none, none, none, none] := by
  rw [show detectEdges stripeBuffer =
    [none, none, none, none, some (magSq stripeBuffer 1 1), none, none, none, none] from rfl,
    stripe_magSq]

/-- C4 (counterexample): on `stripeBuffer` the leading-lines sub-score of the
composition score is 1 (edge-density statistic), while the Hough vote of
`detectLeadingLines` retains no line at all (every stride-2 sample lands on a
border hole), so the claimed formula `min(topVotes/100, 1)`-else-0 predicts 0.
The sub-score is not computed by the Hough vote. -/
theorem c4_subscore_not_hough :
    ValidBuffer stripeBuffer ∧
    leadingLinesAnalysis stripeBuffer = 1 ∧
    houghLines stripeBuffer = [] ∧
    detectLeadingLinesScore stripeBuffer = 0 ∧
    leadingLinesAnalysis stripeBuffer ≠ detectLeadingLinesScore stripeBuffer := by
  have hlla : leadingLinesAnalysis stripeBuffer = 1 := by
    simp only [leadingLinesAnalysis]
    rw [stripe_edges]
    rw [show List.range (stripeBuffer.width * stripeBuffer.height) =
      [0, 1, 2, 3, 4, 5, 6, 7, 8] from rfl]
    norm_num [List.filter_cons, List.getD, min_eq_left, stripeBuffer]
  have hlines : houghLines stripeBuffer = [] := rfl
  have hscore : detectLeadingLinesScore stripeBuffer = 0 := by
    unfold detectLeadingLinesScore
    rw [hlines]
    rfl
  exact ⟨by decide, hlla, hlines, hscore, by rw [hlla, hscore]; norm_num⟩

/-- A filled edge-map cell above threshold `t` (squared). -/
def StrongEdge (es : List (Option ℚ)) (t : ℚ) (i : ℕ) : Prop :=
  ∃ q, es.getD i none = some q ∧ t < q

instance (es : List (Option ℚ)) (t : ℚ) : DecidablePred (StrongEdge es t) := fun i => by
  unfold StrongEdge
  cases h : es.getD i none with
  | none => exact isFalse (by simp [h])
  | some q => exact decidable_of_iff (t < q) (by simp [h])

/-- The Bool test the source applies to an edge-map cell agrees with `StrongEdge`. -/
theorem strongEdge_match (es : List (Option ℚ)) (t : ℚ) (i : ℕ) :
    (match es.getD i none with
     | some q => decide (t < q)
     | none => false) = decide (StrongEdge es t i) := by
  by_cases hs : StrongEdge es t i
  · rw [decide_eq_true hs]
    obtain ⟨q, hq, ht⟩ := hs
    rw [hq]
    show decide (t < q) = true
    exact decide_eq_true ht
  · rw [decide_eq_false hs]
    cases h : es.getD i none with
    | none => rfl
    | some q =>
        show decide (t < q) = false
        exact decide_eq_false (fun hlt => hs ⟨q, h, hlt⟩)

/-- Counting with a list filter over `range n` is counting with a finset filter. -/
theorem length_filter_range_card (n : ℕ) (p : ℕ → Prop) [DecidablePred p] :
    ((List.range n).filter (fun i => decide (p i))).length =
      ((Finset.range n).filter p).card := by
  induction n with
  | zero => simp
  | succ m ih =>
      rw [List.range_succ, List.filter_append, List.length_append, ih,
        Finset.range_succ, Finset.filter_insert]
      by_cases hp : p m
      · rw [if_pos hp,
          Finset.card_insert_of_not_mem (fun hmem =>
            Finset.not_mem_range_self (Finset.mem_of_mem_filter m hmem))]
        simp [hp]
      · rw [if_neg hp]
        simp [hp]

/-- C4 (amended): the leading-lines sub-score of the composition score is the
edge-density statistic `min(1, #{pixels with edge magnitude > 50} / (0.1 · total))`
(thresholds squared in this embedding); the Hough vote with the claimed
angle/distance stepping is `AdvancedImageAnalysis.detectLeadingLines`, which the
composition score never calls. -/
theorem c4_subscore_is_edge_density (b : ImageData) :
    leadingLinesAnalysis b =
      min 1 ((((Finset.range (b.width * b.height)).filter
          (StrongEdge (detectEdges b) 2500)).card : ℚ) /
        ((b.width : ℚ) * (b.height : ℚ) * (1 / 10))) := by
  simp only [leadingLinesAnalysis]
  have hp : (fun i => match (detectEdges b).getD i none with
      | some q => decide ((2500 : ℚ) < q)
      | none => false) = fun i => decide (StrongEdge (detectEdges b) 2500 i) := by
    funext i
    exact strongEdge_match _ _ _
  rw [hp, length_filter_range_card]
  push_cast
  ring_nf

/-! ### C3: closed form of `calculateVisualWeight` on square buffers -/

theorem qSqrt_natSq (m : ℕ) : qSqrt ((m * m : ℕ) : ℚ) = some m := by
  have h1 : (((m * m : ℕ) : ℚ)).num = ((m * m : ℕ) : ℤ) := Rat.num_natCast _
  have h2 : (((m * m : ℕ) : ℚ)).den = 1 := Rat.den_natCast _
  unfold qSqrt
  rw [h1, h2]
  rw [if_pos]
  · rw [Int.toNat_natCast, Nat.sqrt_eq]
    norm_num
  · refine ⟨by positivity, ?_, by norm_num⟩
    rw [Int.toNat_natCast, Nat.sqrt_eq]

theorem byteQ_natCast (b : ImageData) (m : ℕ) :
    byteQ b (m : ℚ) = if m < b.data.length then some ((b.data.getD m 0 : ℚ)) else none := by
  unfold byteQ
  by_cases hm : m < b.data.length
  · rw [if_pos hm, if_pos]
    · simp
    · exact ⟨by positivity, by simp, by simpa using hm⟩
  · rw [if_neg hm, if_neg]
    rintro ⟨-, -, hlt⟩
    simp only [Rat.num_natCast, Int.toNat_natCast] at hlt
    exact hm hlt

/-- For a whole-number byte index with two more bytes available, `brightQ` is
the pixel gray value. -/
theorem brightQ_natCast (b : ImageData) (m : ℕ) (hm : m + 2 < b.data.length) :
    brightQ b (m : ℚ) =
      some (((b.data.getD m 0 : ℚ) + (b.data.getD (m + 1) 0 : ℚ) +
        (b.data.getD (m + 2) 0 : ℚ)) / 3) := by
  unfold brightQ
  rw [show (m : ℚ) + 1 = ((m + 1 : ℕ) : ℚ) from by push_cast; ring,
    show (m : ℚ) + 2 = ((m + 2 : ℕ) : ℚ) from by push_cast; ring]
  rw [byteQ_natCast, byteQ_natCast, byteQ_natCast]
  rw [if_pos (by omega), if_pos (by omega), if_pos (by omega)]

/-- On a square buffer (`data.length = 4·n²`), the visual-weight loop body at an
in-range pixel `(px, py)` contributes exactly that pixel's gray value. -/
theorem vwContrib_sq (b : ImageData) (n py px : ℕ) (hlen : b.data.length = 4 * (n * n))
    (hpy : py < n) (hpx : px < n) :
    vwContrib b py px = some (grayP b (py * n + px)) := by
  have hn : 0 < n := by omega
  have hP : ((b.data.length : ℚ)) / 4 = ((n * n : ℕ) : ℚ) := by
    rw [hlen]; push_cast; ring
  have hnat : (py * n + px) * 4 + 4 ≤ 4 * (n * n) := by nlinarith
  simp only [vwContrib]
  rw [hP, qSqrt_natSq]
  show (if ((py : ℚ) * ((n : ℕ) : ℚ) + (px : ℚ)) * 4 < (b.data.length : ℚ) - 3
    then brightQ b (((py : ℚ) * ((n : ℕ) : ℚ) + (px : ℚ)) * 4) else some 0) =
    some (grayP b (py * n + px))
  have hidx : ((py : ℚ) * (n : ℚ) + (px : ℚ)) * 4 = (((py * n + px) * 4 : ℕ) : ℚ) := by
    push_cast; ring
  rw [hidx, if_pos]
  · rw [brightQ_natCast b _ (by omega)]
    unfold grayP byte
    rw [show 4 * (py * n + px) = (py * n + px) * 4 from by ring]
  · rw [hlen]
    have h3 : (py * n + px) * 4 + 3 < 4 * (n * n) := by omega
    have hc := (Nat.cast_lt (α := ℚ)).mpr h3
    push_cast at hc ⊢
    linarith

/-- Summing JS numbers that are all finite gives the finite sum. -/
theorem osum_map_some_aux (l : List ℚ) :
    ∀ acc : ℚ, (l.map some).foldl oadd (some acc) = some (acc + l.sum) := by
  induction l with
  | nil => intro acc; simp [oadd]
  | cons a t ih =>
      intro acc
      simp only [List.map_cons, List.foldl_cons, oadd]
      rw [ih (acc + a)]
      simp [List.sum_cons]
      ring

theorem osum_map_some (l : List ℚ) : osum (l.map some) = some l.sum := by
  unfold osum
  rw [osum_map_some_aux l 0]
  simp

/-- List-range sums are finset-range sums. -/
theorem list_sum_range (f : ℕ → ℚ) (k : ℕ) :
    ((List.range k).map f).sum = ∑ i ∈ Finset.range k, f i := by
  induction k with
  | zero => simp
  | succ m ih => rw [List.range_succ, List.map_append, List.sum_append,
      Finset.sum_range_succ, ih]; simp

/-- Closed form of `calculateVisualWeight` on a square buffer: the sum of the
gray values over the floored integer window. -/
theorem calculateVisualWeight_sq (b : ImageData) (n : ℕ) (hlen : b.data.length = 4 * (n * n))
    (x y w h : ℚ) (heX : ⌊x + w⌋₊ ≤ n) (heY : ⌊y + h⌋₊ ≤ n) :
    calculateVisualWeight b x y w h =
      some (∑ j ∈ Finset.range (⌊y + h⌋₊ - ⌊y⌋₊), ∑ i ∈ Finset.range (⌊x + w⌋₊ - ⌊x⌋₊),
        grayP b ((⌊y⌋₊ + j) * n + (⌊x⌋₊ + i))) := by
  simp only [calculateVisualWeight]
  have hrow : ∀ j ∈ List.range (⌊y + h⌋₊ - ⌊y⌋₊),
      (List.range (⌊x + w⌋₊ - ⌊x⌋₊)).map (fun i => vwContrib b (⌊y⌋₊ + j) (⌊x⌋₊ + i)) =
      ((List.range (⌊x + w⌋₊ - ⌊x⌋₊)).map
        (fun i => grayP b ((⌊y⌋₊ + j) * n + (⌊x⌋₊ + i)))).map some := by
    intro j hj
    rw [List.map_map]
    refine List.map_congr_left (fun i hi => ?_)
    rw [List.mem_range] at hj hi
    exact vwContrib_sq b n _ _ hlen (by omega) (by omega)
  rw [List.map_congr_left hrow]
  rw [show (List.range (⌊y + h⌋₊ - ⌊y⌋₊)).map (fun j =>
      ((List.range (⌊x + w⌋₊ - ⌊x⌋₊)).map
        (fun i => grayP b ((⌊y⌋₊ + j) * n + (⌊x⌋₊ + i)))).map some) =
    ((List.range (⌊y + h⌋₊ - ⌊y⌋₊)).map (fun j =>
      (List.range (⌊x + w⌋₊ - ⌊x⌋₊)).map
        (fun i => grayP b ((⌊y⌋₊ + j) * n + (⌊x⌋₊ + i))))).map (List.map some)
    from by rw [List.map_map]; rfl]
  rw [← List.map_flatten, osum_map_some, List.sum_flatten, List.map_map]
  congr 1

theorem byte_nonneg (b : ImageData) (i : ℕ) : 0 ≤ byte b i := Nat.cast_nonneg _

theorem getD_le_255 (b : ImageData) (hv : ∀ v ∈ b.data, v ≤ 255) (i : ℕ) :
    b.data.getD i 0 ≤ 255 := by
  by_cases hi : i < b.data.length
  · rw [List.getD_eq_getElem _ _ hi]
    exact hv _ (List.getElem_mem hi)
  · rw [List.getD_eq_default _ _ (by omega)]
    omega

theorem byte_le_255 (b : ImageData) (hv : ∀ v ∈ b.data, v ≤ 255) (i : ℕ) :
    byte b i ≤ 255 := by
  unfold byte
  exact_mod_cast getD_le_255 b hv i

theorem grayP_nonneg (b : ImageData) (p : ℕ) : 0 ≤ grayP b p := by
  unfold grayP
  have h1 := byte_nonneg b (4 * p)
  have h2 := byte_nonneg b (4 * p + 1)
  have h3 := byte_nonneg b (4 * p + 2)
  linarith

theorem grayP_le_255 (b : ImageData) (hv : ∀ v ∈ b.data, v ≤ 255) (p : ℕ) :
    grayP b p ≤ 255 := by
  unfold grayP
  have h1 := byte_le_255 b hv (4 * p)
  have h2 := byte_le_255 b hv (4 * p + 1)
  have h3 := byte_le_255 b hv (4 * p + 2)
  linarith

/-- Visual weight of the left half (`calculateVisualWeight(data, 0, 0, w/2, h)`). -/
def leftHalfWeight (b : ImageData) : ℚ :=
  ∑ j ∈ Finset.range b.height, ∑ i ∈ Finset.range (b.width / 2), grayP b (j * b.width + i)

/-- Visual weight of the right half (`calculateVisualWeight(data, w/2, 0, w/2, h)`). -/
def rightHalfWeight (b : ImageData) : ℚ :=
  ∑ j ∈ Finset.range b.height, ∑ i ∈ Finset.range (b.width - b.width / 2),
    grayP b (j * b.width + (b.width / 2 + i))

/-- Visual weight of the top half (`calculateVisualWeight(data, 0, 0, w, h/2)`). -/
def topHalfWeight (b : ImageData) : ℚ :=
  ∑ j ∈ Finset.range (b.height / 2), ∑ i ∈ Finset.range b.width, grayP b (j * b.width + i)

/-- Visual weight of the bottom half (`calculateVisualWeight(data, 0, h/2, w, h/2)`). -/
def bottomHalfWeight (b : ImageData) : ℚ :=
  ∑ j ∈ Finset.range (b.height - b.height / 2), ∑ i ∈ Finset.range b.width,
    grayP b ((b.height / 2 + j) * b.width + i)

theorem leftHalfWeight_nonneg (b : ImageData) : 0 ≤ leftHalfWeight b :=
  Finset.sum_nonneg (fun _ _ => Finset.sum_nonneg (fun _ _ => grayP_nonneg b _))

theorem rightHalfWeight_nonneg (b : ImageData) : 0 ≤ rightHalfWeight b :=
  Finset.sum_nonneg (fun _ _ => Finset.sum_nonneg (fun _ _ => grayP_nonneg b _))

theorem topHalfWeight_nonneg (b : ImageData) : 0 ≤ topHalfWeight b :=
  Finset.sum_nonneg (fun _ _ => Finset.sum_nonneg (fun _ _ => grayP_nonneg b _))

theorem bottomHalfWeight_nonneg (b : ImageData) : 0 ≤ bottomHalfWeight b :=
  Finset.sum_nonneg (fun _ _ => Finset.sum_nonneg (fun _ _ => grayP_nonneg b _))

/-- On a valid square buffer whose two half-pair weight maxima are nonzero,
`balanceAnalysis` is the half-pair balance formula. -/
theorem balanceAnalysis_closed (b : ImageData) (hv : ValidBuffer b)
    (hsq : b.width = b.height)
    (hLR : max (leftHalfWeight b) (rightHalfWeight b) ≠ 0)
    (hTB : max (topHalfWeight b) (bottomHalfWeight b) ≠ 0) :
    balanceAnalysis b =
      some (((1 - |leftHalfWeight b - rightHalfWeight b| /
          max (leftHalfWeight b) (rightHalfWeight b)) +
        (1 - |topHalfWeight b - bottomHalfWeight b| /
          max (topHalfWeight b) (bottomHalfWeight b))) / 2) := by
  obtain ⟨hw, hh, hlen, hbytes⟩ := hv
  have hlen2 : b.data.length = 4 * (b.width * b.width) := by
    rw [hlen, hsq]; ring
  have hL : calculateVisualWeight b 0 0 ((b.width : ℚ) / 2) ((b.height : ℚ)) =
      some (leftHalfWeight b) := by
    rw [calculateVisualWeight_sq b b.width hlen2 _ _ _ _
      (by simp [Nat.floor_div_ofNat, Nat.floor_natCast]; omega)
      (by simp [Nat.floor_natCast]; omega)]
    unfold leftHalfWeight
    simp [Nat.floor_div_ofNat, Nat.floor_natCast, hsq]
  have hR : calculateVisualWeight b ((b.width : ℚ) / 2) 0 ((b.width : ℚ) / 2)
      ((b.height : ℚ)) = some (rightHalfWeight b) := by
    rw [calculateVisualWeight_sq b b.width hlen2 _ _ _ _ ?hx ?hy]
    case hx =>
      rw [show ((b.width : ℚ) / 2 + (b.width : ℚ) / 2) = ((b.width : ℚ)) from by ring]
      simp [Nat.floor_natCast]
    case hy => simp [Nat.floor_natCast]; omega
    unfold rightHalfWeight
    rw [show ((b.width : ℚ) / 2 + (b.width : ℚ) / 2) = ((b.width : ℚ)) from by ring]
    simp [Nat.floor_div_ofNat, Nat.floor_natCast, hsq]
  have hT : calculateVisualWeight b 0 0 ((b.width : ℚ)) ((b.height : ℚ) / 2) =
      some (topHalfWeight b) := by
    rw [calculateVisualWeight_sq b b.width hlen2 _ _ _ _
      (by simp [Nat.floor_natCast])
      (by simp [Nat.floor_div_ofNat, Nat.floor_natCast]; omega)]
    unfold topHalfWeight
    simp [Nat.floor_div_ofNat, Nat.floor_natCast]
  have hB : calculateVisualWeight b 0 ((b.height : ℚ) / 2) ((b.width : ℚ))
      ((b.height : ℚ) / 2) = some (bottomHalfWeight b) := by
    rw [calculateVisualWeight_sq b b.width hlen2 _ _ _ _ ?hx2 ?hy2]
    case hx2 => simp [Nat.floor_natCast]
    case hy2 =>
      rw [show ((b.height : ℚ) / 2 + (b.height : ℚ) / 2) = ((b.height : ℚ)) from by ring]
      simp [Nat.floor_natCast]; omega
    unfold bottomHalfWeight
    rw [show ((b.height : ℚ) / 2 + (b.height : ℚ) / 2) = ((b.height : ℚ)) from by ring]
    simp [Nat.floor_div_ofNat, Nat.floor_natCast, hsq]
  simp only [balanceAnalysis]
  rw [hL, hR, hT, hB]
  simp only [osub, oabs, omax, oadd, odiv, jdiv]
  rw [if_neg hLR, if_neg hTB]
  simp only [osub, oadd, odiv, jdiv]
  norm_num

/-- The quadrant-balance formula asserted by the claim for the composition
score's balance sub-score: mean over the four image quadrants of
`1 - |quadrantWeight/totalWeight - 0.25|` with summed per-pixel luma weights.
This is a refinement definition following the claim's words; the source
implements this formula in `AdvancedImageAnalysis.calculateBalance`, not in the
composition score. -/
def claimedQuadrantBalance (b : ImageData) : ℚ :=
  let q1 := ∑ j ∈ Finset.range (b.height / 2), ∑ i ∈ Finset.range (b.width / 2),
    grayP b (j * b.width + i)
  let q2 := ∑ j ∈ Finset.range (b.height / 2), ∑ i ∈ Finset.range (b.width - b.width / 2),
    grayP b (j * b.width + (b.width / 2 + i))
  let q3 := ∑ j ∈ Finset.range (b.height - b.height / 2), ∑ i ∈ Finset.range (b.width / 2),
    grayP b ((b.height / 2 + j) * b.width + i)
  let q4 := ∑ j ∈ Finset.range (b.height - b.height / 2),
    ∑ i ∈ Finset.range (b.width - b.width / 2),
    grayP b ((b.height / 2 + j) * b.width + (b.width / 2 + i))
  let total := q1 + q2 + q3 + q4
  ((1 - |q1 / total - 1 / 4|) + (1 - |q2 / total - 1 / 4|) +
    (1 - |q3 / total - 1 / 4|) + (1 - |q4 / total - 1 / 4|)) / 4

/-- A valid 2×2 buffer with gray pixel values 30, 60, 90, 120. -/
def quadBuffer : ImageData :=
  ⟨2, 2, [30, 30, 30, 255, 60, 60, 60, 255, 90, 90, 90, 255, 120, 120, 120, 255]⟩

theorem quadBuffer_weights :
    leftHalfWeight quadBuffer = 120 ∧ rightHalfWeight quadBuffer = 180 ∧
    topHalfWeight quadBuffer = 90 ∧ bottomHalfWeight quadBuffer = 210 := by
  refine ⟨?_, ?_, ?_, ?_⟩ <;>
    norm_num [leftHalfWeight, rightHalfWeight, topHalfWeight, bottomHalfWeight,
      Finset.sum_range_succ, grayP, byte, quadBuffer, List.getD]

theorem quadBuffer_brightQ :
    brightQ quadBuffer 0 = some 30 ∧ brightQ quadBuffer 4 = some 60 ∧
    brightQ quadBuffer 8 = some 90 ∧ brightQ quadBuffer 12 = some 120 := by
  refine ⟨?_, ?_, ?_, ?_⟩
  · rw [show (0 : ℚ) = ((0 : ℕ) : ℚ) from by norm_num,
      brightQ_natCast _ _ (by norm_num [quadBuffer])]
    norm_num [quadBuffer, List.getD]
  · rw [show (4 : ℚ) = ((4 : ℕ) : ℚ) from by norm_num,
      brightQ_natCast _ _ (by norm_num [quadBuffer])]
    norm_num [quadBuffer, List.getD]
  · rw [show (8 : ℚ) = ((8 : ℕ) : ℚ) from by norm_num,
      brightQ_natCast _ _ (by norm_num [quadBuffer])]
    norm_num [quadBuffer, List.getD]
  · rw [show (12 : ℚ) = ((12 : ℕ) : ℚ) from by norm_num,
      brightQ_natCast _ _ (by norm_num [quadBuffer])]
    norm_num [quadBuffer, List.getD]

theorem quadBuffer_quadWeights :
    quadWeight quadBuffer 0 0 1 1 = some 30 ∧ quadWeight quadBuffer 1 0 1 1 = some 60 ∧
    quadWeight quadBuffer 0 1 1 1 = some 90 ∧ quadWeight quadBuffer 1 1 1 1 = some 120 := by
  obtain ⟨hb0, hb4, hb8, hb12⟩ := quadBuffer_brightQ
  have hiter : qIters (1 : ℚ) = 1 := by simp [qIters]
  have hw2 : ((quadBuffer.width : ℕ) : ℚ) = 2 := by norm_num [quadBuffer]
  refine ⟨?_, ?_, ?_, ?_⟩ <;>
    · simp only [quadWeight, hiter]
      rw [show List.range 1 = [0] from rfl]
      simp only [List.map_cons, List.map_nil, List.flatten_cons, List.flatten_nil,
        List.append_nil, hw2]
      norm_num
      first
        | (rw [hb0]; norm_num [osum, oadd])
        | (rw [hb4]; norm_num [osum, oadd])
        | (rw [hb8]; norm_num [osum, oadd])
        | (rw [hb12]; norm_num [osum, oadd])

theorem quadBuffer_calculateBalance : calculateBalance quadBuffer = some (9 / 10) := by
  obtain ⟨hq1, hq2, hq3, hq4⟩ := quadBuffer_quadWeights
  have hw2 : ((quadBuffer.width : ℕ) : ℚ) = 2 := by norm_num [quadBuffer]
  have hh2 : ((quadBuffer.height : ℕ) : ℚ) = 2 := by norm_num [quadBuffer]
  simp only [calculateBalance, hw2, hh2]
  rw [show (2 : ℚ) / 2 = 1 from by norm_num]
  rw [hq1, hq2, hq3, hq4]
  have ht : ¬((0 : ℚ) + 30 + 60 + 90 + 120 = 0) := by norm_num
  simp only [oadd, osum, List.foldl_cons, List.foldl_nil, odiv, jdiv, osub, oabs,
    if_neg ht]
  rw [if_neg (show ¬((4 : ℚ) = 0) from by norm_num)]
  rw [show ((0 : ℚ) + 30 + 60 + 90 + 120) = 300 from by norm_num]
  rw [abs_sub_comm ((30 : ℚ) / 300) (1 / 4), abs_sub_comm ((60 : ℚ) / 300) (1 / 4)]
  rw [abs_of_nonneg (by norm_num : (0 : ℚ) ≤ 1 / 4 - 30 / 300),
    abs_of_nonneg (by norm_num : (0 : ℚ) ≤ 1 / 4 - 60 / 300),
    abs_of_nonneg (by norm_num : (0 : ℚ) ≤ (90 : ℚ) / 300 - 1 / 4),
    abs_of_nonneg (by norm_num : (0 : ℚ) ≤ (120 : ℚ) / 300 - 1 / 4)]
  norm_num

theorem quadBuffer_claimed : claimedQuadrantBalance quadBuffer = 9 / 10 := by
  have e1 : (∑ j ∈ Finset.range (quadBuffer.height / 2),
      ∑ i ∈ Finset.range (quadBuffer.width / 2),
      grayP quadBuffer (j * quadBuffer.width + i)) = 30 := by
    norm_num [Finset.sum_range_succ, grayP, byte, quadBuffer, List.getD]
  have e2 : (∑ j ∈ Finset.range (quadBuffer.height / 2),
      ∑ i ∈ Finset.range (quadBuffer.width - quadBuffer.width / 2),
      grayP quadBuffer (j * quadBuffer.width + (quadBuffer.width / 2 + i))) = 60 := by
    norm_num [Finset.sum_range_succ, grayP, byte, quadBuffer, List.getD]
  have e3 : (∑ j ∈ Finset.range (quadBuffer.height - quadBuffer.height / 2),
      ∑ i ∈ Finset.range (quadBuffer.width / 2),
      grayP quadBuffer ((quadBuffer.height / 2 + j) * quadBuffer.width + i)) = 90 := by
    norm_num [Finset.sum_range_succ, grayP, byte, quadBuffer, List.getD]
  have e4 : (∑ j ∈ Finset.range (quadBuffer.height - quadBuffer.height / 2),
      ∑ i ∈ Finset.range (quadBuffer.width - quadBuffer.width / 2),
      grayP quadBuffer ((quadBuffer.height / 2 + j) * quadBuffer.width +
        (quadBuffer.width / 2 + i))) = 120 := by
    norm_num [Finset.sum_range_succ, grayP, byte, quadBuffer, List.getD]
  simp only [claimedQuadrantBalance]
  rw [e1, e2, e3, e4]
  rw [show ((30 : ℚ) + 60 + 90 + 120) = 300 from by norm_num]
  rw [abs_sub_comm ((30 : ℚ) / 300) (1 / 4), abs_sub_comm ((60 : ℚ) / 300) (1 / 4)]
  rw [abs_of_nonneg (by norm_num : (0 : ℚ) ≤ 1 / 4 - 30 / 300),
    abs_of_nonneg (by norm_num : (0 : ℚ) ≤ 1 / 4 - 60 / 300),
    abs_of_nonneg (by norm_num : (0 : ℚ) ≤ (90 : ℚ) / 300 - 1 / 4),
    abs_of_nonneg (by norm_num : (0 : ℚ) ≤ (120 : ℚ) / 300 - 1 / 4)]
  norm_num

theorem quadBuffer_balanceAnalysis : balanceAnalysis quadBuffer = some (23 / 42) := by
  obtain ⟨hL, hR, hT, hBm⟩ := quadBuffer_weights
  rw [balanceAnalysis_closed quadBuffer (by decide) rfl
    (by rw [hL, hR]; norm_num) (by rw [hT, hBm]; norm_num)]
  rw [hL, hR, hT, hBm]
  rw [show |(120 : ℚ) - 180| = 60 from by rw [abs_of_nonpos (by norm_num)]; norm_num,
    show |(90 : ℚ) - 210| = 120 from by rw [abs_of_nonpos (by norm_num)]; norm_num,
    show max (120 : ℚ) 180 = 180 from max_eq_right (by norm_num),
    show max (90 : ℚ) 210 = 210 from max_eq_right (by norm_num)]
  norm_num

/-- C3 (counterexample): on a valid 2×2 buffer with gray values 30, 60, 90, 120,
the balance sub-score of the composition score is `23/42`, while the claimed
quadrant-share formula gives `9/10` — the value actually computed by
`AdvancedImageAnalysis.calculateBalance`, which the composition score never
calls.  The claim equates the sub-score with the wrong function. -/
theorem c3_balance_not_quadrant :
    ValidBuffer quadBuffer ∧
    balanceAnalysis quadBuffer = some (23 / 42) ∧
    claimedQuadrantBalance quadBuffer = 9 / 10 ∧
    balanceAnalysis quadBuffer ≠ some (claimedQuadrantBalance quadBuffer) ∧
    calculateBalance quadBuffer = some (claimedQuadrantBalance quadBuffer) := by
  refine ⟨by decide, quadBuffer_balanceAnalysis, quadBuffer_claimed, ?_, ?_⟩
  · rw [quadBuffer_balanceAnalysis, quadBuffer_claimed]
    intro h
    have := Option.some.inj h
    norm_num at this
  · rw [quadBuffer_calculateBalance, quadBuffer_claimed]

/-- C3 (amended): on a valid square buffer whose left/right and top/bottom
visual-weight maxima are nonzero, the balance sub-score of the composition
score equals the mean over the two half pairs of `1 - |W₁ - W₂| / max(W₁, W₂)`,
where the weights are summed per-pixel gray values of the image halves.  The
quadrant-share formula named by the claim belongs to
`AdvancedImageAnalysis.calculateBalance` (see the counterexample). -/
theorem c3_balance_half_pair_formula (b : ImageData) (hv : ValidBuffer b)
    (hsq : b.width = b.height)
    (hLR : max (leftHalfWeight b) (rightHalfWeight b) ≠ 0)
    (hTB : max (topHalfWeight b) (bottomHalfWeight b) ≠ 0) :
    balanceAnalysis b =
      some (((1 - |leftHalfWeight b - rightHalfWeight b| /
          max (leftHalfWeight b) (rightHalfWeight b)) +
        (1 - |topHalfWeight b - bottomHalfWeight b| /
          max (topHalfWeight b) (bottomHalfWeight b))) / 2) :=
  balanceAnalysis_closed b hv hsq hLR hTB

/-- C3 (witness): the amended theorem applied to the concrete 2×2 buffer. -/
theorem c3_balance_half_pair_formula_witness :
    (ValidBuffer quadBuffer ∧ quadBuffer.width = quadBuffer.height ∧
      max (leftHalfWeight quadBuffer) (rightHalfWeight quadBuffer) ≠ 0 ∧
      max (topHalfWeight quadBuffer) (bottomHalfWeight quadBuffer) ≠ 0) ∧
    balanceAnalysis quadBuffer =
      some (((1 - |leftHalfWeight quadBuffer - rightHalfWeight quadBuffer| /
          max (leftHalfWeight quadBuffer) (rightHalfWeight quadBuffer)) +
        (1 - |topHalfWeight quadBuffer - bottomHalfWeight quadBuffer| /
          max (topHalfWeight quadBuffer) (bottomHalfWeight quadBuffer))) / 2) :=
  ⟨⟨by decide, rfl,
    by obtain ⟨hL, hR, _, _⟩ := quadBuffer_weights; rw [hL, hR]; norm_num,
    by obtain ⟨_, _, hT, hBm⟩ := quadBuffer_weights; rw [hT, hBm]; norm_num⟩,
   c3_balance_half_pair_formula quadBuffer (by decide) rfl
    (by obtain ⟨hL, hR, _, _⟩ := quadBuffer_weights; rw [hL, hR]; norm_num)
    (by obtain ⟨_, _, hT, hBm⟩ := quadBuffer_weights; rw [hT, hBm]; norm_num)⟩

/-! ### C2: every score of the composition analysis lies in the unit interval -/

theorem list_sum_nonneg (l : List ℚ) (h : ∀ x ∈ l, 0 ≤ x) : 0 ≤ l.sum := by
  induction l with
  | nil => simp
  | cons a t ih =>
      simp only [List.sum_cons]
      have ha := h a (List.mem_cons_self a t)
      have ht := ih (fun x hx => h x (List.mem_cons_of_mem a hx))
      linarith

theorem list_sum_le_card (l : List ℚ) (c : ℚ) (h : ∀ x ∈ l, x ≤ c) :
    l.sum ≤ l.length * c := by
  induction l with
  | nil => simp
  | cons a t ih =>
      simp only [List.sum_cons, List.length_cons]
      have ha := h a (List.mem_cons_self a t)
      have ht := ih (fun x hx => h x (List.mem_cons_of_mem a hx))
      push_cast
      linarith

theorem grayAt_bounds (b : ImageData) (hbytes : ∀ v ∈ b.data, v ≤ 255) (x y : ℕ) :
    0 ≤ grayAt b x y ∧ grayAt b x y ≤ 255 :=
  ⟨grayP_nonneg b _, grayP_le_255 b hbytes _⟩

/-- The symmetry sub-score lies in `[0,1]` for every valid buffer. -/
theorem symmetryAnalysis_range (b : ImageData) (hv : ValidBuffer b) :
    0 ≤ symmetryAnalysis b ∧ symmetryAnalysis b ≤ 1 := by
  obtain ⟨hw, hh, hlen, hbytes⟩ := hv
  simp only [symmetryAnalysis]
  set K := (b.width + 1) / 2 with hK
  have hterm : ∀ y x : ℕ,
      0 ≤ 1 - |grayAt b x y - grayAt b (b.width - 1 - x) y| / 255 ∧
      1 - |grayAt b x y - grayAt b (b.width - 1 - x) y| / 255 ≤ 1 := by
    intro y x
    obtain ⟨hl0, hl1⟩ := grayAt_bounds b hbytes x y
    obtain ⟨hr0, hr1⟩ := grayAt_bounds b hbytes (b.width - 1 - x) y
    have habs : |grayAt b x y - grayAt b (b.width - 1 - x) y| ≤ 255 := by
      rw [abs_sub_le_iff]
      constructor <;> linarith
    have habs0 : 0 ≤ |grayAt b x y - grayAt b (b.width - 1 - x) y| := abs_nonneg _
    constructor <;> [linarith; linarith]
  have hrow : ∀ y : ℕ,
      0 ≤ ((List.range K).map (fun x =>
        1 - |grayAt b x y - grayAt b (b.width - 1 - x) y| / 255)).sum ∧
      ((List.range K).map (fun x =>
        1 - |grayAt b x y - grayAt b (b.width - 1 - x) y| / 255)).sum ≤ K := by
    intro y
    constructor
    · refine list_sum_nonneg _ (fun t ht => ?_)
      obtain ⟨x, -, rfl⟩ := List.mem_map.mp ht
      exact (hterm y x).1
    · have := list_sum_le_card ((List.range K).map (fun x =>
        1 - |grayAt b x y - grayAt b (b.width - 1 - x) y| / 255)) 1 (fun t ht => by
          obtain ⟨x, -, rfl⟩ := List.mem_map.mp ht
          exact (hterm y x).2)
      simpa using this
  have htot0 : 0 ≤ ((List.range b.height).map (fun y => ((List.range K).map (fun x =>
      1 - |grayAt b x y - grayAt b (b.width - 1 - x) y| / 255)).sum)).sum := by
    refine list_sum_nonneg _ (fun t ht => ?_)
    obtain ⟨y, -, rfl⟩ := List.mem_map.mp ht
    exact (hrow y).1
  have htot1 : ((List.range b.height).map (fun y => ((List.range K).map (fun x =>
      1 - |grayAt b x y - grayAt b (b.width - 1 - x) y| / 255)).sum)).sum ≤
      (b.height : ℚ) * K := by
    have := list_sum_le_card ((List.range b.height).map (fun y => ((List.range K).map (fun x =>
      1 - |grayAt b x y - grayAt b (b.width - 1 - x) y| / 255)).sum)) K (fun t ht => by
        obtain ⟨y, -, rfl⟩ := List.mem_map.mp ht
        exact (hrow y).2)
    simpa using this
  have hKpos : 0 < K := by omega
  have hNpos : (0 : ℚ) < ((b.height * K : ℕ) : ℚ) := by
    have : 0 < b.height * K := Nat.mul_pos hh hKpos
    exact_mod_cast this
  constructor
  · exact div_nonneg htot0 (le_of_lt hNpos)
  · rw [div_le_one hNpos]
    push_cast
    push_cast at htot1
    linarith

/-- The leading-lines sub-score lies in `[0,1]` (unconditionally). -/
theorem leadingLinesAnalysis_range (b : ImageData) :
    0 ≤ leadingLinesAnalysis b ∧ leadingLinesAnalysis b ≤ 1 := by
  simp only [leadingLinesAnalysis]
  constructor
  · exact le_min (by norm_num) (div_nonneg (by positivity) (by positivity))
  · exact min_le_left _ _

/-- The visual-interest statistic lies in `[0,1]` (unconditionally). -/
theorem analyzeVisualInterest_range (b : ImageData) :
    0 ≤ analyzeVisualInterest b ∧ analyzeVisualInterest b ≤ 1 := by
  simp only [analyzeVisualInterest]
  constructor
  · exact le_min (by norm_num) (div_nonneg (by positivity) (by positivity))
  · exact min_le_left _ _

theorem pixelOffs_length (b : ImageData) (M : ℕ) (hlen : b.data.length = 4 * M) :
    (pixelOffs b).length = M := by
  simp only [pixelOffs, List.length_map, List.length_range, hlen]
  omega

/-- The depth sub-score lies in `[0,1]` for every valid buffer. -/
theorem depthAnalysis_range (b : ImageData) (hv : ValidBuffer b) :
    0 ≤ depthAnalysis b ∧ depthAnalysis b ≤ 1 := by
  obtain ⟨hw, hh, hlen, -⟩ := hv
  have hM : (pixelOffs b).length = b.width * b.height :=
    pixelOffs_length b _ (by rw [hlen]; ring)
  have hpos : (0 : ℚ) < ((pixelOffs b).length : ℚ) := by
    rw [hM]
    exact_mod_cast Nat.mul_pos hw hh
  simp only [depthAnalysis]
  constructor
  · exact div_nonneg (by positivity) (le_of_lt hpos)
  · rw [div_le_one hpos]
    exact_mod_cast List.length_filter_le _ _

/-- The mood statistic lies in `[0,1]` for every valid buffer. -/
theorem analyzeMood_range (b : ImageData) (hv : ValidBuffer b) :
    0 ≤ analyzeMood b ∧ analyzeMood b ≤ 1 := by
  obtain ⟨hw, hh, hlen, -⟩ := hv
  have hM : (pixelOffs b).length = b.width * b.height :=
    pixelOffs_length b _ (by rw [hlen]; ring)
  have hpos : (0 : ℚ) < ((pixelOffs b).length : ℚ) := by
    rw [hM]
    exact_mod_cast Nat.mul_pos hw hh
  simp only [analyzeMood]
  set wr := (((pixelOffs b).filter (fun i =>
    decide (byte b (i + 1) < byte b i ∧ byte b (i + 2) < byte b i))).length : ℚ) /
    ((pixelOffs b).length : ℚ) with hwr
  set cr := (((pixelOffs b).filter (fun i =>
    decide (byte b i < byte b (i + 2) ∧ byte b (i + 1) < byte b (i + 2)))).length : ℚ) /
    ((pixelOffs b).length : ℚ) with hcr
  have hwr01 : 0 ≤ wr ∧ wr ≤ 1 := by
    constructor
    · exact div_nonneg (by positivity) (le_of_lt hpos)
    · rw [hwr, div_le_one hpos]
      exact_mod_cast List.length_filter_le _ _
  have hcr01 : 0 ≤ cr ∧ cr ≤ 1 := by
    constructor
    · exact div_nonneg (by positivity) (le_of_lt hpos)
    · rw [hcr, div_le_one hpos]
      exact_mod_cast List.length_filter_le _ _
  have habs : |wr - cr| ≤ 1 := by
    rw [abs_sub_le_iff]
    constructor <;> [linarith [hwr01.2, hcr01.1]; linarith [hcr01.2, hwr01.1]]
  have habs0 : 0 ≤ |wr - cr| := abs_nonneg _
  constructor <;> [linarith; linarith]

/-- Without a crop the golden-ratio sub-score is the neutral value; with a crop
of positive height it is a defined value in `[0,1]`. -/
theorem goldenRatioAnalysis_range (b : ImageData) (crop : Option CropSelection)
    (hcrop : ∀ c ∈ crop, 0 < c.width ∧ 0 < c.height) :
    ∃ g, goldenRatioAnalysis b crop = some g ∧ 0 ≤ g ∧ g ≤ 1 := by
  match crop with
  | none => exact ⟨1 / 2, rfl, by norm_num, by norm_num⟩
  | some c =>
      obtain ⟨-, hch⟩ := hcrop c rfl
      refine ⟨max 0 (1 - |c.width / c.height - 1.618| / 1.618), ?_, le_max_left _ _, ?_⟩
      · simp only [goldenRatioAnalysis, jdiv]
        rw [if_neg (ne_of_gt hch)]
        rfl
      · refine max_le (by norm_num) ?_
        have h0 : 0 ≤ |c.width / c.height - 1.618| / 1.618 := by positivity
        linarith

/-- With at least two color samples (`data.length > 16`) the harmony score is a
defined value in `[0,1]`. -/
theorem analyzeColorHarmony_range (b : ImageData) (h16 : 16 < b.data.length) :
    ∃ ch, analyzeColorHarmony b = some ch ∧ 0 ≤ ch ∧ ch ≤ 1 := by
  have hn : 2 ≤ (harmonySamples b).length := by
    simp only [harmonySamples, List.length_map, List.length_range]
    omega
  have hpairs : (0 : ℚ) < ((harmonySamples b).length : ℚ) *
      (((harmonySamples b).length : ℚ) - 1) / 2 := by
    have h2 : (2 : ℚ) ≤ ((harmonySamples b).length : ℚ) := by exact_mod_cast hn
    nlinarith
  simp only [analyzeColorHarmony]
  rw [if_neg (ne_of_gt hpairs)]
  refine ⟨_, rfl, ?_, min_le_left _ _⟩
  exact le_min (by norm_num) (div_nonneg (by positivity) (le_of_lt hpairs))

theorem foldl_max_nonneg (l : List (ℚ × ℚ)) (g : ℚ × ℚ → ℝ) :
    ∀ c : ℝ, 0 ≤ c → 0 ≤ l.foldl (fun best pt => max best (g pt)) c := by
  induction l with
  | nil => intro c hc; simpa using hc
  | cons a t ih =>
      intro c hc
      simp only [List.foldl_cons]
      exact ih _ (le_max_of_le_left hc)

theorem foldl_max_le_one (l : List (ℚ × ℚ)) (g : ℚ × ℚ → ℝ) (hg : ∀ a ∈ l, g a ≤ 1) :
    ∀ c : ℝ, c ≤ 1 → l.foldl (fun best pt => max best (g pt)) c ≤ 1 := by
  induction l with
  | nil => intro c hc; simpa using hc
  | cons a t ih =>
      intro c hc
      simp only [List.foldl_cons]
      exact ih (fun x hx => hg x (List.mem_cons_of_mem a hx)) _
        (max_le hc (hg a (List.mem_cons_self a t)))

/-- The rule-of-thirds sub-score lies in `[0,1]` for every valid buffer and
every (possibly absent) crop. -/
theorem ruleOfThirdsAnalysis_range (b : ImageData) (crop : Option CropSelection)
    (hv : ValidBuffer b) :
    0 ≤ ruleOfThirdsAnalysis b crop ∧ ruleOfThirdsAnalysis b crop ≤ 1 := by
  match crop with
  | none =>
      constructor <;> norm_num [ruleOfThirdsAnalysis]
  | some c =>
      obtain ⟨hw, hh, -, -⟩ := hv
      have h1 : (1 : ℚ) ≤ min (b.width : ℚ) (b.height : ℚ) :=
        le_min (by exact_mod_cast hw) (by exact_mod_cast hh)
      have hm4 : (0 : ℝ) < ((min (b.width : ℚ) (b.height : ℚ) : ℚ) : ℝ) / 4 := by
        have h1r : (1 : ℝ) ≤ ((min (b.width : ℚ) (b.height : ℚ) : ℚ) : ℝ) := by
          exact_mod_cast h1
        linarith
      simp only [ruleOfThirdsAnalysis]
      constructor
      · exact foldl_max_nonneg _ _ 0 le_rfl
      · refine foldl_max_le_one _ _ (fun a _ => ?_) 0 (by norm_num)
        refine max_le (by norm_num) ?_
        have hd : (0 : ℝ) ≤ Real.sqrt (((c.x + c.width / 2 - a.1) ^ 2 +
            (c.y + c.height / 2 - a.2) ^ 2 : ℚ)) := Real.sqrt_nonneg _
        have hdiv : (0 : ℝ) ≤ Real.sqrt (((c.x + c.width / 2 - a.1) ^ 2 +
            (c.y + c.height / 2 - a.2) ^ 2 : ℚ)) /
            (((min (b.width : ℚ) (b.height : ℚ) : ℚ) : ℝ) / 4) :=
          div_nonneg hd (le_of_lt hm4)
        linarith

/-- The balance sub-score is defined and lies in `[0,1]` on valid square
buffers with nonzero half-pair maxima. -/
theorem balanceAnalysis_range (b : ImageData) (hv : ValidBuffer b)
    (hsq : b.width = b.height)
    (hLR : max (leftHalfWeight b) (rightHalfWeight b) ≠ 0)
    (hTB : max (topHalfWeight b) (bottomHalfWeight b) ≠ 0) :
    ∃ bal, balanceAnalysis b = some bal ∧ 0 ≤ bal ∧ bal ≤ 1 := by
  have hL0 := leftHalfWeight_nonneg b
  have hR0 := rightHalfWeight_nonneg b
  have hT0 := topHalfWeight_nonneg b
  have hB0 := bottomHalfWeight_nonneg b
  have hLRpos : 0 < max (leftHalfWeight b) (rightHalfWeight b) :=
    lt_of_le_of_ne (le_trans hL0 (le_max_left _ _)) (Ne.symm hLR)
  have hTBpos : 0 < max (topHalfWeight b) (bottomHalfWeight b) :=
    lt_of_le_of_ne (le_trans hT0 (le_max_left _ _)) (Ne.symm hTB)
  have habsLR : |leftHalfWeight b - rightHalfWeight b| ≤
      max (leftHalfWeight b) (rightHalfWeight b) := by
    rw [abs_sub_le_iff]
    constructor
    · linarith [le_max_left (leftHalfWeight b) (rightHalfWeight b)]
    · linarith [le_max_right (leftHalfWeight b) (rightHalfWeight b)]
  have habsTB : |topHalfWeight b - bottomHalfWeight b| ≤
      max (topHalfWeight b) (bottomHalfWeight b) := by
    rw [abs_sub_le_iff]
    constructor
    · linarith [le_max_left (topHalfWeight b) (bottomHalfWeight b)]
    · linarith [le_max_right (topHalfWeight b) (bottomHalfWeight b)]
  have hq1 : 0 ≤ |leftHalfWeight b - rightHalfWeight b| /
      max (leftHalfWeight b) (rightHalfWeight b) :=
    div_nonneg (abs_nonneg _) (le_of_lt hLRpos)
  have hq1' : |leftHalfWeight b - rightHalfWeight b| /
      max (leftHalfWeight b) (rightHalfWeight b) ≤ 1 := (div_le_one hLRpos).mpr habsLR
  have hq2 : 0 ≤ |topHalfWeight b - bottomHalfWeight b| /
      max (topHalfWeight b) (bottomHalfWeight b) :=
    div_nonneg (abs_nonneg _) (le_of_lt hTBpos)
  have hq2' : |topHalfWeight b - bottomHalfWeight b| /
      max (topHalfWeight b) (bottomHalfWeight b) ≤ 1 := (div_le_one hTBpos).mpr habsTB
  refine ⟨_, balanceAnalysis_closed b hv hsq hLR hTB, ?_, ?_⟩
  · linarith
  · linarith

/-- The technical score lies in `[0,1]` for every valid buffer. -/
theorem analyzeTechnicalAspects_range (b : ImageData) (hv : ValidBuffer b) :
    0 ≤ analyzeTechnicalAspects b ∧ analyzeTechnicalAspects b ≤ 1 := by
  obtain ⟨hw, hh, hlen, hbytes⟩ := hv
  have hM : 0 < b.width * b.height := Nat.mul_pos hw hh
  have hlen4 : b.data.length = 4 * (b.width * b.height) := by rw [hlen]; ring
  have hoffs : (pixelOffs b).length = b.width * b.height := pixelOffs_length b _ hlen4
  simp only [analyzeTechnicalAspects]
  set EP := ((detectEdges b).filter (fun e => match e with
    | some q => decide ((900 : ℚ) < q)
    | none => false)).length with hEP
  set TB := ((pixelOffs b).map
    (fun i => (byte b i + byte b (i + 1) + byte b (i + 2)) / 3)).sum with hTBdef
  set PC : ℚ := (b.data.length : ℚ) / 4 with hPCdef
  set AV : ℚ := TB / PC with hAVdef
  set VR := ((pixelOffs b).map
    (fun i => ((byte b i + byte b (i + 1) + byte b (i + 2)) / 3 - AV) ^ 2)).sum with hVRdef
  have hPCM : PC = ((b.width * b.height : ℕ) : ℚ) := by
    rw [hPCdef, hlen4]; push_cast; ring
  have hPCpos : (0 : ℚ) < PC := by
    rw [hPCM]; exact_mod_cast hM
  -- sharpness bounds
  have heslen : ((detectEdges b).length : ℚ) = ((b.width * b.height : ℕ) : ℚ) := by
    rw [detectEdges_length]
  have heslenpos : (0 : ℚ) < ((detectEdges b).length : ℚ) := by
    rw [heslen]; exact_mod_cast hM
  have hsh0 : (0 : ℚ) ≤ (EP : ℚ) / ((detectEdges b).length : ℚ) :=
    div_nonneg (by positivity) (le_of_lt heslenpos)
  have hsh1 : (EP : ℚ) / ((detectEdges b).length : ℚ) ≤ 1 := by
    rw [div_le_one heslenpos]
    exact_mod_cast List.length_filter_le _ _
  -- brightness bounds
  have hTB0 : 0 ≤ TB := by
    rw [hTBdef]
    refine list_sum_nonneg _ (fun t ht => ?_)
    obtain ⟨i, -, rfl⟩ := List.mem_map.mp ht
    have h1 := byte_nonneg b i
    have h2 := byte_nonneg b (i + 1)
    have h3 := byte_nonneg b (i + 2)
    linarith
  have hTB1 : TB ≤ ((pixelOffs b).length : ℚ) * 255 := by
    rw [hTBdef]
    have := list_sum_le_card ((pixelOffs b).map
      (fun i => (byte b i + byte b (i + 1) + byte b (i + 2)) / 3)) 255 (fun t ht => by
        obtain ⟨i, -, rfl⟩ := List.mem_map.mp ht
        have h1 := byte_le_255 b hbytes i
        have h2 := byte_le_255 b hbytes (i + 1)
        have h3 := byte_le_255 b hbytes (i + 2)
        linarith)
    simpa using this
  have hlenq : ((pixelOffs b).length : ℚ) = PC := by
    rw [hoffs, hPCM]
  have hAV0 : 0 ≤ AV := div_nonneg hTB0 (le_of_lt hPCpos)
  have hAV1 : AV ≤ 255 := by
    rw [hAVdef, div_le_iff hPCpos]
    rw [hlenq] at hTB1
    linarith
  -- exposure bounds
  have hexp0 : (0 : ℚ) ≤ AV / 255 := by positivity
  have hexp1 : AV / 255 ≤ 1 := by
    rw [div_le_one (by norm_num : (0:ℚ) < 255)]
    exact hAV1
  have hmid : 0 ≤ 1 - |AV / 255 - 1 / 2| * 2 ∧ 1 - |AV / 255 - 1 / 2| * 2 ≤ 1 := by
    have habs : |AV / 255 - 1 / 2| ≤ 1 / 2 :=
      abs_le.mpr ⟨by linarith, by linarith⟩
    have habs0 : 0 ≤ |AV / 255 - 1 / 2| := abs_nonneg _
    constructor <;> linarith
  -- variance bounds
  have hVR0 : 0 ≤ VR := by
    rw [hVRdef]
    refine list_sum_nonneg _ (fun t ht => ?_)
    obtain ⟨i, -, rfl⟩ := List.mem_map.mp ht
    positivity
  have hVR1 : VR ≤ ((pixelOffs b).length : ℚ) * 65025 := by
    rw [hVRdef]
    have := list_sum_le_card ((pixelOffs b).map
      (fun i => ((byte b i + byte b (i + 1) + byte b (i + 2)) / 3 - AV) ^ 2)) 65025
      (fun t ht => by
        obtain ⟨i, -, rfl⟩ := List.mem_map.mp ht
        have h1 := byte_le_255 b hbytes i
        have h2 := byte_le_255 b hbytes (i + 1)
        have h3 := byte_le_255 b hbytes (i + 2)
        have h4 := byte_nonneg b i
        have h5 := byte_nonneg b (i + 1)
        have h6 := byte_nonneg b (i + 2)
        have : ((byte b i + byte b (i + 1) + byte b (i + 2)) / 3 - AV) ^ 2 ≤ 255 ^ 2 :=
          sq_le_sq' (by linarith) (by linarith)
        linarith [this])
    simpa using this
  have hVRPC1 : VR / PC ≤ 65025 := by
    rw [div_le_iff hPCpos]
    rw [hlenq] at hVR1
    linarith
  have hVRPC0 : 0 ≤ VR / PC := div_nonneg hVR0 (le_of_lt hPCpos)
  -- noise bounds
  have hs255 : Real.sqrt ((VR / PC : ℚ) : ℝ) ≤ 255 := by
    have h1 : ((VR / PC : ℚ) : ℝ) ≤ ((65025 : ℚ) : ℝ) := by exact_mod_cast hVRPC1
    have h2 := Real.sqrt_le_sqrt h1
    rw [show ((65025 : ℚ) : ℝ) = (255 : ℝ) ^ 2 from by norm_num] at h2
    rwa [Real.sqrt_sq (by norm_num)] at h2
  have hs0 : (0 : ℝ) ≤ Real.sqrt ((VR / PC : ℚ) : ℝ) := Real.sqrt_nonneg _
  have hnoise0 : (0 : ℝ) ≤ Real.sqrt ((VR / PC : ℚ) : ℝ) / 255 := by positivity
  have hnoise1 : Real.sqrt ((VR / PC : ℚ) : ℝ) / 255 ≤ 1 := by
    rw [div_le_one (by norm_num : (0:ℝ) < 255)]
    exact hs255
  -- assemble
  have hshR0 : (0 : ℝ) ≤ (((EP : ℚ) / ((detectEdges b).length : ℚ) : ℚ) : ℝ) := by
    exact_mod_cast hsh0
  have hshR1 : (((EP : ℚ) / ((detectEdges b).length : ℚ) : ℚ) : ℝ) ≤ 1 := by
    exact_mod_cast hsh1
  have hmidR0 : (0 : ℝ) ≤ ((1 - |AV / 255 - 1 / 2| * 2 : ℚ) : ℝ) := by
    exact_mod_cast hmid.1
  have hmidR1 : ((1 - |AV / 255 - 1 / 2| * 2 : ℚ) : ℝ) ≤ 1 := by
    exact_mod_cast hmid.2
  constructor
  · push_cast
    push_cast at hshR0 hshR1 hmidR0 hmidR1 hnoise0 hnoise1
    linarith
  · push_cast
    push_cast at hshR0 hshR1 hmidR0 hmidR1 hnoise0 hnoise1
    linarith

/-- The artistic score is defined and lies in `[0,1]` for valid buffers with at
least two harmony samples. -/
theorem analyzeArtisticAspects_range (b : ImageData) (hv : ValidBuffer b)
    (h16 : 16 < b.data.length) :
    ∃ a, analyzeArtisticAspects b = some a ∧ 0 ≤ a ∧ a ≤ 1 := by
  obtain ⟨ch, hch, hch0, hch1⟩ := analyzeColorHarmony_range b h16
  obtain ⟨hm0, hm1⟩ := analyzeMood_range b hv
  obtain ⟨hvi0, hvi1⟩ := analyzeVisualInterest_range b
  refine ⟨ch * (4 / 10) + analyzeMood b * (3 / 10) + analyzeVisualInterest b * (3 / 10),
    ?_, ?_, ?_⟩
  · simp only [analyzeArtisticAspects]
    rw [hch]
    rfl
  · linarith
  · linarith

/-- The composition score (mean of the six rules) is defined and lies in `[0,1]`
under the combined hypotheses. -/
theorem analyzeCompositionRules_range (b : ImageData) (crop : Option CropSelection)
    (hv : ValidBuffer b) (hsq : b.width = b.height)
    (hLR : max (leftHalfWeight b) (rightHalfWeight b) ≠ 0)
    (hTB : max (topHalfWeight b) (bottomHalfWeight b) ≠ 0)
    (hcrop : ∀ c ∈ crop, 0 < c.width ∧ 0 < c.height) :
    ∃ cs, analyzeCompositionRules b crop = some cs ∧ 0 ≤ cs ∧ cs ≤ 1 := by
  obtain ⟨g, hg, hg0, hg1⟩ := goldenRatioAnalysis_range b crop hcrop
  obtain ⟨bal, hbal, hb0, hb1⟩ := balanceAnalysis_range b hv hsq hLR hTB
  obtain ⟨ht0, ht1⟩ := ruleOfThirdsAnalysis_range b crop hv
  obtain ⟨hs0, hs1⟩ := symmetryAnalysis_range b hv
  obtain ⟨hl0, hl1⟩ := leadingLinesAnalysis_range b
  obtain ⟨hd0, hd1⟩ := depthAnalysis_range b hv
  have hgR0 : (0 : ℝ) ≤ (g : ℝ) := by exact_mod_cast hg0
  have hgR1 : (g : ℝ) ≤ 1 := by exact_mod_cast hg1
  have hbR0 : (0 : ℝ) ≤ (bal : ℝ) := by exact_mod_cast hb0
  have hbR1 : (bal : ℝ) ≤ 1 := by exact_mod_cast hb1
  have hsR0 : (0 : ℝ) ≤ ((symmetryAnalysis b : ℚ) : ℝ) := by exact_mod_cast hs0
  have hsR1 : ((symmetryAnalysis b : ℚ) : ℝ) ≤ 1 := by exact_mod_cast hs1
  have hlR0 : (0 : ℝ) ≤ ((leadingLinesAnalysis b : ℚ) : ℝ) := by exact_mod_cast hl0
  have hlR1 : ((leadingLinesAnalysis b : ℚ) : ℝ) ≤ 1 := by exact_mod_cast hl1
  have hdR0 : (0 : ℝ) ≤ ((depthAnalysis b : ℚ) : ℝ) := by exact_mod_cast hd0
  have hdR1 : ((depthAnalysis b : ℚ) : ℝ) ≤ 1 := by exact_mod_cast hd1
  refine ⟨(ruleOfThirdsAnalysis b crop + (g : ℝ) + ((symmetryAnalysis b : ℚ) : ℝ) +
      ((leadingLinesAnalysis b : ℚ) : ℝ) + (bal : ℝ) + ((depthAnalysis b : ℚ) : ℝ)) / 6,
    ?_, ?_, ?_⟩
  · simp only [analyzeCompositionRules]
    rw [hg, hbal]
  · linarith
  · linarith

/-- The overall score of the analysis record is defined and lies in `[0,1]`
under the combined hypotheses. -/
theorem analyzeComposition_overall_range (b : ImageData) (crop : Option CropSelection)
    (hv : ValidBuffer b) (hsq : b.width = b.height) (h16 : 16 < b.data.length)
    (hLR : max (leftHalfWeight b) (rightHalfWeight b) ≠ 0)
    (hTB : max (topHalfWeight b) (bottomHalfWeight b) ≠ 0)
    (hcrop : ∀ c ∈ crop, 0 < c.width ∧ 0 < c.height) :
    ∃ ov, (analyzeComposition b crop).overallScore = some ov ∧ 0 ≤ ov ∧ ov ≤ 1 := by
  obtain ⟨a, ha, ha0, ha1⟩ := analyzeArtisticAspects_range b hv h16
  obtain ⟨cs, hcs, hc0, hc1⟩ := analyzeCompositionRules_range b crop hv hsq hLR hTB hcrop
  obtain ⟨ht0, ht1⟩ := analyzeTechnicalAspects_range b hv
  have haR0 : (0 : ℝ) ≤ (a : ℝ) := by exact_mod_cast ha0
  have haR1 : (a : ℝ) ≤ 1 := by exact_mod_cast ha1
  refine ⟨analyzeTechnicalAspects b * (3 / 10) + (a : ℝ) * (3 / 10) + cs * (4 / 10),
    ?_, ?_, ?_⟩
  · simp only [analyzeComposition]
    rw [ha, hcs]
  · linarith
  · linarith

/-- C2 (amended): for every valid square buffer of width at least 3 whose two
half-pair visual-weight maxima are nonzero, and for every absent or positive-
dimension crop, all six composition sub-scores, their mean `compositionScore`,
and the `overallScore` of the analysis are defined (not NaN) and lie in
`[0,1]`. -/
theorem c2_scores_unit_interval (b : ImageData) (crop : Option CropSelection)
    (hv : ValidBuffer b) (hsq : b.width = b.height) (h3 : 3 ≤ b.width)
    (hLR : max (leftHalfWeight b) (rightHalfWeight b) ≠ 0)
    (hTB : max (topHalfWeight b) (bottomHalfWeight b) ≠ 0)
    (hcrop : ∀ c ∈ crop, 0 < c.width ∧ 0 < c.height) :
    (0 ≤ ruleOfThirdsAnalysis b crop ∧ ruleOfThirdsAnalysis b crop ≤ 1) ∧
    (∃ g, goldenRatioAnalysis b crop = some g ∧ 0 ≤ g ∧ g ≤ 1) ∧
    (0 ≤ symmetryAnalysis b ∧ symmetryAnalysis b ≤ 1) ∧
    (0 ≤ leadingLinesAnalysis b ∧ leadingLinesAnalysis b ≤ 1) ∧
    (∃ bal, balanceAnalysis b = some bal ∧ 0 ≤ bal ∧ bal ≤ 1) ∧
    (0 ≤ depthAnalysis b ∧ depthAnalysis b ≤ 1) ∧
    (∃ cs, (analyzeComposition b crop).compositionScore = some cs ∧ 0 ≤ cs ∧ cs ≤ 1) ∧
    (∃ ov, (analyzeComposition b crop).overallScore = some ov ∧ 0 ≤ ov ∧ ov ≤ 1) := by
  have h16 : 16 < b.data.length := by
    obtain ⟨-, -, hlen, -⟩ := hv
    have hh3 : 3 ≤ b.height := hsq ▸ h3
    rw [hlen]
    nlinarith
  have hfield : (analyzeComposition b crop).compositionScore =
      analyzeCompositionRules b crop := rfl
  exact ⟨ruleOfThirdsAnalysis_range b crop hv,
    goldenRatioAnalysis_range b crop hcrop,
    symmetryAnalysis_range b hv,
    leadingLinesAnalysis_range b,
    balanceAnalysis_range b hv hsq hLR hTB,
    depthAnalysis_range b hv,
    hfield ▸ analyzeCompositionRules_range b crop hv hsq hLR hTB hcrop,
    analyzeComposition_overall_range b crop hv hsq h16 hLR hTB hcrop⟩

/-- A valid 1×1 all-black buffer. -/
def blackBuffer1 : ImageData := ⟨1, 1, [0, 0, 0, 255]⟩

theorem blackBuffer1_balance : balanceAnalysis blackBuffer1 = none := by
  have hlen : blackBuffer1.data.length = 4 * (1 * 1) := rfl
  have hwc : ((blackBuffer1.width : ℕ) : ℚ) = 1 := by norm_num [blackBuffer1]
  have hhc : ((blackBuffer1.height : ℕ) : ℚ) = 1 := by norm_num [blackBuffer1]
  have hfl0 : (⌊(1 : ℚ) / 2⌋₊ : ℕ) = 0 := Nat.floor_eq_zero.mpr (by norm_num)
  have hfl1 : (⌊(1 : ℚ)⌋₊ : ℕ) = 1 := by
    rw [show (1 : ℚ) = ((1 : ℕ) : ℚ) from by norm_num, Nat.floor_natCast]
  have hL : calculateVisualWeight blackBuffer1 0 0 ((1 : ℚ) / 2) 1 = some 0 := by
    rw [calculateVisualWeight_sq blackBuffer1 1 hlen _ _ _ _
      (by rw [zero_add, hfl0]; omega) (by rw [zero_add, hfl1])]
    norm_num [hfl0]
  have hR : calculateVisualWeight blackBuffer1 ((1 : ℚ) / 2) 0 ((1 : ℚ) / 2) 1 = some 0 := by
    rw [calculateVisualWeight_sq blackBuffer1 1 hlen _ _ _ _ ?hx ?hy]
    case hx =>
      rw [show ((1 : ℚ) / 2 + (1 : ℚ) / 2) = (1 : ℚ) from by ring, hfl1]
    case hy => rw [zero_add, hfl1]
    rw [show ((1 : ℚ) / 2 + (1 : ℚ) / 2) = (1 : ℚ) from by ring]
    rw [hfl0, hfl1]
    norm_num [grayP, byte, blackBuffer1, List.getD]
  have hT : calculateVisualWeight blackBuffer1 0 0 1 ((1 : ℚ) / 2) = some 0 := by
    rw [calculateVisualWeight_sq blackBuffer1 1 hlen _ _ _ _
      (by rw [zero_add, hfl1]) (by rw [zero_add, hfl0]; omega)]
    norm_num [hfl0]
  have hB : calculateVisualWeight blackBuffer1 0 ((1 : ℚ) / 2) 1 ((1 : ℚ) / 2) = some 0 := by
    rw [calculateVisualWeight_sq blackBuffer1 1 hlen _ _ _ _ ?hx2 ?hy2]
    case hx2 => rw [zero_add, hfl1]
    case hy2 =>
      rw [show ((1 : ℚ) / 2 + (1 : ℚ) / 2) = (1 : ℚ) from by ring, hfl1]
    rw [show ((1 : ℚ) / 2 + (1 : ℚ) / 2) = (1 : ℚ) from by ring]
    rw [hfl0, hfl1]
    norm_num [grayP, byte, blackBuffer1, List.getD]
  simp only [balanceAnalysis, hwc, hhc]
  rw [hL, hR, hT, hB]
  simp only [osub, oabs, omax, odiv, jdiv]
  norm_num [oadd]

theorem blackBuffer1_harmony : analyzeColorHarmony blackBuffer1 = none := by
  simp only [analyzeColorHarmony]
  rw [show (harmonySamples blackBuffer1).length = 1 from rfl]
  rw [if_pos (by norm_num)]

/-- C2 (counterexample): on the valid all-black 1×1 buffer the balance rule
divides `0/0` (all four visual weights are 0) and the harmony score divides
`0/0` (a single color sample), so the balance sub-score, `compositionScore` and
`overallScore` are all NaN (`none`) — not numbers in `[0,1]`. -/
theorem c2_black_buffer_nan :
    ValidBuffer blackBuffer1 ∧
    balanceAnalysis blackBuffer1 = none ∧
    analyzeColorHarmony blackBuffer1 = none ∧
    (analyzeComposition blackBuffer1 none).compositionScore = none ∧
    (analyzeComposition blackBuffer1 none).overallScore = none ∧
    ¬ ∃ cs, (analyzeComposition blackBuffer1 none).compositionScore = some cs ∧
      0 ≤ cs ∧ cs ≤ 1 := by
  have hcs : (analyzeComposition blackBuffer1 none).compositionScore = none := by
    show analyzeCompositionRules blackBuffer1 none = none
    simp only [analyzeCompositionRules]
    rw [show goldenRatioAnalysis blackBuffer1 none = some (1 / 2) from rfl,
      blackBuffer1_balance]
  have hov : (analyzeComposition blackBuffer1 none).overallScore = none := by
    simp only [analyzeComposition]
    rw [show analyzeArtisticAspects blackBuffer1 = none from by
      simp only [analyzeArtisticAspects]; rw [blackBuffer1_harmony]; rfl]
  refine ⟨by decide, blackBuffer1_balance, blackBuffer1_harmony, hcs, hov, ?_⟩
  rw [hcs]
  rintro ⟨cs, h, -⟩
  exact Option.noConfusion h

/-- A valid 3×3 uniform gray buffer (all channels 200). -/
def grayBuffer3 : ImageData :=
  ⟨3, 3, [200, 200, 200, 255, 200, 200, 200, 255, 200, 200, 200, 255,
          200, 200, 200, 255, 200, 200, 200, 255, 200, 200, 200, 255,
          200, 200, 200, 255, 200, 200, 200, 255, 200, 200, 200, 255]⟩

set_option maxHeartbeats 1600000 in
theorem grayBuffer3_weights :
    leftHalfWeight grayBuffer3 = 600 ∧ rightHalfWeight grayBuffer3 = 1200 ∧
    topHalfWeight grayBuffer3 = 600 ∧ bottomHalfWeight grayBuffer3 = 1200 := by
  refine ⟨?_, ?_, ?_, ?_⟩ <;>
    norm_num [leftHalfWeight, rightHalfWeight, topHalfWeight, bottomHalfWeight,
      Finset.sum_range_succ, grayP, byte, grayBuffer3, List.getD]

/-- C2 (witness): the amended theorem applied to the 3×3 gray buffer without a
crop. -/
theorem c2_scores_unit_interval_witness :
    (ValidBuffer grayBuffer3 ∧ grayBuffer3.width = grayBuffer3.height ∧
      3 ≤ grayBuffer3.width ∧
      max (leftHalfWeight grayBuffer3) (rightHalfWeight grayBuffer3) ≠ 0 ∧
      max (topHalfWeight grayBuffer3) (bottomHalfWeight grayBuffer3) ≠ 0 ∧
      (∀ c ∈ (none : Option CropSelection), 0 < c.width ∧ 0 < c.height)) ∧
    ((0 ≤ ruleOfThirdsAnalysis grayBuffer3 none ∧ ruleOfThirdsAnalysis grayBuffer3 none ≤ 1) ∧
    (∃ g, goldenRatioAnalysis grayBuffer3 none = some g ∧ 0 ≤ g ∧ g ≤ 1) ∧
    (0 ≤ symmetryAnalysis grayBuffer3 ∧ symmetryAnalysis grayBuffer3 ≤ 1) ∧
    (0 ≤ leadingLinesAnalysis grayBuffer3 ∧ leadingLinesAnalysis grayBuffer3 ≤ 1) ∧
    (∃ bal, balanceAnalysis grayBuffer3 = some bal ∧ 0 ≤ bal ∧ bal ≤ 1) ∧
    (0 ≤ depthAnalysis grayBuffer3 ∧ depthAnalysis grayBuffer3 ≤ 1) ∧
    (∃ cs, (analyzeComposition grayBuffer3 none).compositionScore = some cs ∧
      0 ≤ cs ∧ cs ≤ 1) ∧
    (∃ ov, (analyzeComposition grayBuffer3 none).overallScore = some ov ∧
      0 ≤ ov ∧ ov ≤ 1)) :=
  ⟨⟨by decide, rfl, by norm_num [grayBuffer3],
    by obtain ⟨hL, hR, -, -⟩ := grayBuffer3_weights; rw [hL, hR]; norm_num,
    by obtain ⟨-, -, hT, hB⟩ := grayBuffer3_weights; rw [hT, hB]; norm_num,
    by intro c hc; simp at hc⟩,
   c2_scores_unit_interval grayBuffer3 none (by decide) rfl (by norm_num [grayBuffer3])
    (by obtain ⟨hL, hR, -, -⟩ := grayBuffer3_weights; rw [hL, hR]; norm_num)
    (by obtain ⟨-, -, hT, hB⟩ := grayBuffer3_weights; rw [hT, hB]; norm_num)
    (by intro c hc; simp at hc)⟩

end FrameGen
